import Mathlib

set_option maxRecDepth 1000000

/-!
Verification development for the STV counting engine in `stv.py`.

The engine is embedded shallowly:

* Python floats are modelled by `ℚ`.  The only place where the exact
  IEEE-754 behaviour of a float operation is claim-relevant is the
  threshold computation `int(len(ballots) / (seats + 1.0)) + 1`; for it we
  model double-precision rounding explicitly (`floatRound`: round to
  nearest, ties to even, with a 53-bit significand, ignoring exponent
  overflow and underflow, which are unreachable for list lengths and seat
  counts).
* Python dicts are modelled by insertion-ordered association lists
  (`alookup` / `aset`): updating an existing key keeps its position,
  a new key is appended.  This matches dict iteration order, which the
  source relies on (`vote_count.items()`, `constituencies.items()`).
* Ballot objects are stored in an indexed store (`List Ballot`); the
  allocation map holds indices, mirroring Python references.
* Exceptions (KeyError, IndexError, ZeroDivisionError) are modelled by
  `Option`: `none` means the call raises.
* The PRNG is a function `ℕ → ℕ` (the seeded stream) together with a
  counter of consumed draws; `random.random() * n` truncation is modelled
  as `stream draw % n`.  `tieDraws` additionally counts only the draws
  made by `select_first_rnd` (tie-break draws).
* Logging is side-effect free and is not modelled; no claim refers to the
  text of the log records.
-/

/-! ## Association lists with Python dict semantics -/

def alookup {α : Type} (m : List (String × α)) (k : String) : Option α :=
  match m with
  | [] => none
  | (k', v) :: rest => if k' = k then some v else alookup rest k

def aset {α : Type} (m : List (String × α)) (k : String) (v : α) : List (String × α) :=
  match m with
  | [] => [(k, v)]
  | (k', v') :: rest => if k' = k then (k', v) :: rest else (k', v') :: aset rest k v

def akeys {α : Type} (m : List (String × α)) : List String := m.map (·.1)

/-- Sum of all values of an association list (used for the tally total). -/
def asum (m : List (String × ℚ)) : ℚ := (m.map (·.2)).sum

/-! ## IEEE-754 double rounding model for the threshold computation

`stv.py` line 418: `threshold = int(len(ballots) / (seats + 1.0)) + 1`.
The division is float division; we model the correctly rounded binary64
result of operations on exact rationals. -/

/-- Round half to even: the integer nearest to `q`, ties going to the even
integer.  This is the rounding used at the significand of binary64. -/
def rhe (q : ℚ) : ℤ :=
  if q - (⌊q⌋ : ℚ) < 1/2 then ⌊q⌋
  else if (1:ℚ)/2 < q - (⌊q⌋ : ℚ) then ⌊q⌋ + 1
  else if ⌊q⌋ % 2 = 0 then ⌊q⌋ else ⌊q⌋ + 1

/-- `Python round(x, 15)` on the transfer totals, modelled on ℚ. -/
def round15 (q : ℚ) : ℚ := ((rhe (q * 10 ^ 15) : ℚ)) / 10 ^ 15

/-- Fuel-driven: number of halvings of `q ≥ 1` until it drops below 2. -/
def dnl : ℕ → ℚ → ℕ
  | 0, _ => 0
  | fuel + 1, q => if q < 2 then 0 else dnl fuel (q / 2) + 1

/-- Fuel-driven: number of doublings of `0 < q < 1` until it reaches 1. -/
def upl : ℕ → ℚ → ℕ
  | 0, _ => 0
  | fuel + 1, q => if 1 ≤ q then 0 else upl fuel (q * 2) + 1

/-- `⌊log₂ q⌋` for a positive rational, by explicit structural recursion
(kernel-reducible, unlike well-founded definitions). -/
def ilog2 (q : ℚ) : ℤ :=
  if 1 ≤ q then (dnl q.num.toNat q : ℤ) else -(upl q.den q : ℤ)

/-- The value of a positive rational rounded to the nearest binary64
(53-bit significand, ties to even; exponent range ignored). -/
def posRound (q : ℚ) : ℚ :=
  ((rhe (q * (2:ℚ) ^ (-(ilog2 q - 52))) : ℚ)) * (2:ℚ) ^ (ilog2 q - 52)

/-- A rational rounded to the nearest binary64 value. -/
def floatRound (q : ℚ) : ℚ :=
  if q = 0 then 0 else if 0 < q then posRound q else -posRound (-q)

/-- Python `int()` on a float: truncation toward zero. -/
def intTrunc (q : ℚ) : ℤ := if q < 0 then -⌊-q⌋ else ⌊q⌋

/-- `int(len(ballots) / (seats + 1.0)) + 1` with binary64 arithmetic:
`seats` and `len(ballots)` are converted to float, the sum and the
quotient are correctly rounded; division by `0.0` raises
ZeroDivisionError (`none`). -/
def pyThreshold (n : ℕ) (seats : ℤ) : Option ℤ :=
  if floatRound (floatRound (seats : ℚ) + 1) = 0 then none
  else some (intTrunc (floatRound (floatRound (n : ℚ) /
               floatRound (floatRound (seats : ℚ) + 1))) + 1)

/-! ## Ballots and the ballot store

`Ballot` models the fields of `stv.Ballot` that the counting engine reads:
the preference list, `current_holder`, and the accumulated `_value`.
Ballot objects are held in an indexed store (`List Ballot`); allocation
lists hold store indices, mirroring Python object references.  (The shared
class attribute `Ballot.weights` is modelled separately, see
`BallotClass` below; the engine itself never reads it.) -/

structure Ballot where
  candidates : List String
  currentHolder : ℕ
  value : ℚ
deriving DecidableEq, Repr

def blankBallot : Ballot := ⟨[], 0, 1⟩

/-! ## Tie-breaking primitives (`select_first_rnd`, `random.shuffle`, sorting) -/

/-- `select_first_rnd(sequence, key, action)`: collect the items whose key
equals the first item's key; if more than one, draw an index from the
random stream.  Returns the selection together with the updated total and
tie-break draw counters; `none` models the IndexError on an empty
sequence. -/
def select_first_rnd {α β : Type} [DecidableEq β] (seq : List α) (key : α → β)
    (stream : ℕ → ℕ) (consumed tieDraws : ℕ) : Option (α × ℕ × ℕ) :=
  match seq with
  | [] => none
  | x :: _ =>
    let collected := seq.filter fun it => key it = key x
    if 1 < collected.length then
      some (collected.getD (stream consumed % collected.length) x,
            consumed + 1, tieDraws + 1)
    else
      some (x, consumed, tieDraws)

/-- Swap two positions of a list (no-op when out of range). -/
def lswap {α : Type} (l : List α) (i j : ℕ) : List α :=
  match l.get? i, l.get? j with
  | some a, some b => (l.set i b).set j a
  | _, _ => l

/-- Fisher–Yates steps of `random.shuffle`, from position `i` down to 1:
`j = draw mod (i+1)`, swap `l[i]` and `l[j]`.  One draw per step. -/
def fyAux {α : Type} (stream : ℕ → ℕ) : ℕ → List α → ℕ → List α × ℕ
  | 0, l, consumed => (l, consumed)
  | i + 1, l, consumed =>
    fyAux stream i (lswap l (i + 1) (stream consumed % (i + 2))) (consumed + 1)

/-- `random.shuffle(l)`: consumes `|l| - 1` draws when `|l| ≥ 1`, none
otherwise. -/
def fisherYates {α : Type} (stream : ℕ → ℕ) (l : List α) (consumed : ℕ) :
    List α × ℕ :=
  fyAux stream (l.length - 1) l consumed

/-- Stable insertion: place `x` before the first `y` with `le x y`.
With a total preorder `le` this reproduces Python's stable `sorted`. -/
def insertLe {α : Type} (le : α → α → Bool) (x : α) : List α → List α
  | [] => [x]
  | y :: ys => if le x y then x :: y :: ys else y :: insertLe le x ys

/-- Stable sort (insertion sort), matching Python's stable `sorted`/`sort`. -/
def isort {α : Type} (le : α → α → Bool) : List α → List α
  | [] => []
  | x :: xs => insertLe le x (isort le xs)

/-- `sort_rnd(sequence, key, reverse)`: shuffle, then stable sort. -/
def sort_rnd {α : Type} (le : α → α → Bool) (stream : ℕ → ℕ)
    (l : List α) (consumed : ℕ) : List α × ℕ :=
  let p := fisherYates stream l consumed
  (isort le p.1, p.2)

/-! ## Ballot transfer engine (`redistribute_ballots`) -/

/-- Scan `cands` from index `start` for the first candidate who is a
member of `hopefuls`; `some i` is the index found. -/
def scanAux (hopefuls : List String) : List String → ℕ → Option ℕ
  | [], _ => none
  | c :: rest, idx =>
    if c ∈ hopefuls then some idx else scanAux hopefuls rest (idx + 1)

def scanFrom (cands hopefuls : List String) (start : ℕ) : Option ℕ :=
  scanAux hopefuls (cands.drop start) start

/-- The `moves` dict of `redistribute_ballots`, keyed by
`(recipient, post-multiplication value)` (the `selected` component is
constant); the stored number is `len(ballots)` for the key.  Insertion
order is preserved, as for a Python dict. -/
def mbump (moves : List ((String × ℚ) × ℕ)) (k : String × ℚ) :
    List ((String × ℚ) × ℕ) :=
  match moves with
  | [] => [(k, 1)]
  | (k', n) :: rest =>
    if k' = k then (k', n + 1) :: rest else (k', n) :: mbump rest k

structure Redist where
  ballots : List Ballot
  allocated : List (String × List ℕ)
  moves : List ((String × ℚ) × ℕ)
  transferred : List ℕ
deriving DecidableEq

/-- The per-ballot loop of `redistribute_ballots`: for each ballot of the
selected candidate, scan for the next hopeful preference; on success
advance `current_holder`, multiply the value by `weight`, append the
ballot to the recipient's allocation, and record the move.  The loop runs
over the snapshot of `allocated[selected]`; this matches the source
whenever `selected ∉ hopefuls`, which holds at every call site (the
caller removes `selected` from `hopefuls` first). -/
def redistLoop (weight : ℚ) (hopefuls : List String) :
    List ℕ → Redist → Redist
  | [], r => r
  | id :: rest, r =>
    let b := r.ballots.getD id blankBallot
    match scanFrom b.candidates hopefuls (b.currentHolder + 1) with
    | none => redistLoop weight hopefuls rest r
    | some j =>
      let recipient := b.candidates.getD j ""
      let b' : Ballot := ⟨b.candidates, j, b.value * weight⟩
      redistLoop weight hopefuls rest
        { ballots := r.ballots.set id b'
          allocated := aset r.allocated recipient
            (((alookup r.allocated recipient).getD []) ++ [id])
          moves := mbump r.moves (recipient, b'.value)
          transferred := r.transferred ++ [id] }

/-- Apply the recorded moves to the vote count:
`total = round(times * value, 15)`, `vote_count[recipient] += total`
(creating the entry when absent), `vote_count[selected] -= total`
(KeyError = `none` when `selected` has no entry). -/
def applyMoves (selected : String) :
    List ((String × ℚ) × ℕ) → List (String × ℚ) → Option (List (String × ℚ))
  | [], vc => some vc
  | ((recipient, v), times) :: rest, vc =>
    let total := round15 ((times : ℚ) * v)
    let vc1 :=
      match alookup vc recipient with
      | some old => aset vc recipient (old + total)
      | none => aset vc recipient total
    match alookup vc1 selected with
    | none => none
    | some so => applyMoves selected rest (aset vc1 selected (so - total))

/-- `redistribute_ballots(selected, weight, hopefuls, allocated,
vote_count)`.  Returns the updated ballot store, allocation and vote
count; `none` models a KeyError.  Note that ballots whose scan finds no
hopeful stay in `allocated[selected]`: only the transferred ballots are
filtered out at the end, preserving the order of the rest. -/
def redistribute_ballots (selected : String) (weight : ℚ)
    (hopefuls : List String) (ballots : List Ballot)
    (allocated : List (String × List ℕ)) (vc : List (String × ℚ)) :
    Option (List Ballot × List (String × List ℕ) × List (String × ℚ)) :=
  match alookup allocated selected with
  | none => none
  | some ids =>
    let r := redistLoop weight hopefuls ids ⟨ballots, allocated, [], []⟩
    match applyMoves selected r.moves vc with
    | none => none
    | some vc' =>
      some (r.ballots,
            aset r.allocated selected
              (ids.filter fun i => !(r.transferred.contains i)),
            vc')

/-! ## Election/rejection policy (`elect_reject`) -/

/-- Result of `elect_reject`.  `status = none` models a KeyError raised by
the call; the list fields reflect the mutations performed before the
raise (Python mutates the caller's lists in place, so an append that
happened before the exception is visible to the caller even though the
count then aborts). -/
structure ElectResult where
  status : Option Bool
  elected : List (String × ℕ × ℚ)
  rejected : List (String × ℕ × ℚ)
  constituenciesElected : List (String × ℕ)
deriving DecidableEq

/-- `elect_reject(candidate, vote_count, constituencies_map, quota_limit,
current_round, elected, rejected, constituencies_elected)`.

Quota check: only when `quota_limit > 0` and the candidate has an entry
in the constituency map; the lookup of the candidate's constituency in
`constituencies_elected` raises (`status = none`) when that entry is
missing.  On quota exceeded the triple is appended to `rejected` and
`False` is returned.  Otherwise the triple is appended to `elected`;
then, whenever the constituency map is non-empty (`if constituencies_map:`
in the source is a truthiness test on the whole dict), the candidate is
looked up in it unconditionally — a candidate without an entry raises
KeyError at that point, after the append. -/
def elect_reject (candidate : String) (vc : List (String × ℚ))
    (cmap : List (String × String)) (quota : ℤ) (round : ℕ)
    (elected rejected : List (String × ℕ × ℚ))
    (epc : List (String × ℕ)) : ElectResult :=
  let quotaCheck : Option Bool :=
    if 0 < quota then
      match alookup cmap candidate with
      | none => some false
      | some cc =>
        match alookup epc cc with
        | none => none
        | some k => some (decide (quota ≤ (k : ℤ)))
    else some false
  match quotaCheck with
  | none => ⟨none, elected, rejected, epc⟩
  | some true =>
    match alookup vc candidate with
    | none => ⟨none, elected, rejected, epc⟩
    | some v => ⟨some false, elected, rejected ++ [(candidate, round, v)], epc⟩
  | some false =>
    match alookup vc candidate with
    | none => ⟨none, elected, rejected, epc⟩
    | some v =>
      let elected' := elected ++ [(candidate, round, v)]
      match cmap with
      | [] => ⟨some true, elected', rejected, epc⟩
      | _ :: _ =>
        match alookup cmap candidate with
        | none => ⟨none, elected', rejected, epc⟩
        | some cc =>
          match alookup epc cc with
          | none => ⟨none, elected', rejected, epc⟩
          | some k => ⟨some true, elected', rejected, aset epc cc (k + 1)⟩

/-! ## The count state and the main driver (`count_stv`) -/

structure StvState where
  ballots : List Ballot
  allocated : List (String × List ℕ)
  voteCount : List (String × ℚ)
  candidates : List String
  elected : List (String × ℕ × ℚ)
  hopefuls : List String
  eliminated : List String
  rejected : List (String × ℕ × ℚ)
  constituenciesElected : List (String × ℕ)
  currentRound : ℕ
  consumed : ℕ
  tieDraws : ℕ
deriving DecidableEq

def emptyState : StvState :=
  ⟨[], [], [], [], [], [], [], [], [], 1, 0, 0⟩

/-- `vote_count.get` as a sort/selection key.  Every hopeful has a tally
entry by construction of the initial count, so the `getD 0` default is
never observable in a run. -/
def voteKey (vc : List (String × ℚ)) (c : String) : ℚ :=
  (alookup vc c).getD 0

/-- The initialization from `constituencies_map.items()` (stv.py lines
410–416): zero the constituency's elected counter, give the candidate an
empty allocation, register the candidate with a zero tally. -/
def mapInitFold : List (String × String) → StvState → StvState
  | [], st => st
  | (cand, cons) :: rest, st =>
    let st1 := { st with constituenciesElected := aset st.constituenciesElected cons 0 }
    let st2 :=
      if (alookup st1.allocated cand).isSome then st1
      else { st1 with allocated := aset st1.allocated cand [] }
    let st3 :=
      if cand ∈ st2.candidates then st2
      else { st2 with candidates := st2.candidates ++ [cand],
                      voteCount := aset st2.voteCount cand 0 }
    mapInitFold rest st3

/-- Registration of one ballot's candidates during the initial count:
first sight appends to `candidates` and zeroes the tally; a missing
allocation entry is created. -/
def regCands : List String → StvState → StvState
  | [], st => st
  | c :: rest, st =>
    let st1 :=
      if c ∈ st.candidates then st
      else { st with candidates := st.candidates ++ [c],
                     voteCount := aset st.voteCount c 0 }
    let st2 :=
      if (alookup st1.allocated c).isSome then st1
      else { st1 with allocated := aset st1.allocated c [] }
    regCands rest st2

/-- The initial count (stv.py lines 424–433): for each ballot, register
its candidates, then attribute the ballot to its first preference.  A
ballot with an empty preference list raises IndexError (`none`). -/
def initialCount : List (List String) → StvState → Option StvState
  | [], st => some st
  | cands :: rest, st =>
    match cands with
    | [] => none
    | selected :: _ =>
      let st1 := regCands cands st
      let id := st1.ballots.length
      match alookup st1.voteCount selected with
      | none => none
      | some v =>
        initialCount rest
          { st1 with
            ballots := st1.ballots ++ [⟨cands, 0, 1⟩]
            allocated := aset st1.allocated selected
              (((alookup st1.allocated selected).getD []) ++ [id])
            voteCount := aset st1.voteCount selected (v + 1) }

/-- One round of the main loop (stv.py lines 442–499): sort hopefuls by
tally descending, compute the surplus of the top tally over the
threshold, then either elect/reject the best candidate (redistributing at
`surplus / tally[best]` on a surplus, at `1.0` on a quota rejection) or
eliminate the worst candidate (redistributing at `1.0`). -/
def mainRound (threshold : ℚ) (cmap : List (String × String)) (quota : ℤ)
    (stream : ℕ → ℕ) (st : StvState) : Option StvState :=
  let hs := isort (fun a b => decide (voteKey st.voteCount b ≤ voteKey st.voteCount a)) st.hopefuls
  match hs with
  | [] => none
  | top :: _ =>
    match alookup st.voteCount top with
    | none => none
    | some vtop =>
      let surplus := vtop - threshold
      if 0 ≤ surplus then
        match select_first_rnd hs (voteKey st.voteCount) stream st.consumed st.tieDraws with
        | none => none
        | some (best, c1, t1) =>
          let hopefuls1 := st.hopefuls.erase best
          let er := elect_reject best st.voteCount cmap quota st.currentRound
                      st.elected st.rejected st.constituenciesElected
          match er.status with
          | none => none
          | some was =>
            let st1 : StvState :=
              { st with
                hopefuls := hopefuls1
                elected := er.elected
                rejected := er.rejected
                constituenciesElected := er.constituenciesElected
                consumed := c1
                tieDraws := t1 }
            if was = false then
              match redistribute_ballots best 1 hopefuls1 st1.ballots st1.allocated st1.voteCount with
              | none => none
              | some (bs, al, vc2) =>
                some { st1 with ballots := bs, allocated := al, voteCount := vc2,
                                currentRound := st1.currentRound + 1 }
            else if 0 < surplus then
              match alookup st1.voteCount best with
              | none => none
              | some vbest =>
                match redistribute_ballots best (surplus / vbest) hopefuls1 st1.ballots st1.allocated st1.voteCount with
                | none => none
                | some (bs, al, vc2) =>
                  some { st1 with ballots := bs, allocated := al, voteCount := vc2,
                                  currentRound := st1.currentRound + 1 }
            else
              some { st1 with currentRound := st1.currentRound + 1 }
      else
        match select_first_rnd hs.reverse (voteKey st.voteCount) stream st.consumed st.tieDraws with
        | none => none
        | some (worst, c1, t1) =>
          let hopefuls1 := st.hopefuls.erase worst
          match redistribute_ballots worst 1 hopefuls1 st.ballots st.allocated st.voteCount with
          | none => none
          | some (bs, al, vc2) =>
            some { st with
                   hopefuls := hopefuls1
                   eliminated := st.eliminated ++ [worst]
                   ballots := bs
                   allocated := al
                   voteCount := vc2
                   consumed := c1
                   tieDraws := t1
                   currentRound := st.currentRound + 1 }

/-- The main loop: while `|elected| < seats` and there are hopefuls.
Each round removes exactly one hopeful, so fuel `|hopefuls|` always
suffices; exhausted fuel with a true guard yields `none`. -/
def mainLoop (seats : ℤ) (threshold : ℚ) (cmap : List (String × String))
    (quota : ℤ) (stream : ℕ → ℕ) : ℕ → StvState → Option StvState
  | 0, st =>
    if (st.elected.length : ℤ) < seats ∧ 0 < st.hopefuls.length then none
    else some st
  | fuel + 1, st =>
    if (st.elected.length : ℤ) < seats ∧ 0 < st.hopefuls.length then
      match mainRound threshold cmap quota stream st with
      | none => none
      | some st' => mainLoop seats threshold cmap quota stream fuel st'
    else some st

/-! ## Round-robin filler (`elect_round_robin`) -/

/-- The orphan-constituency comprehension (stv.py lines 320–323):
constituencies whose elected counter is zero, in `constituencies.items()`
order; a constituency missing from `constituencies_elected` raises
KeyError (`none`). -/
def orphFilter (epc : List (String × ℕ)) :
    List (String × ℤ) → Option (List (String × ℤ))
  | [] => some []
  | (c, sz) :: rest =>
    match alookup epc c with
    | none => none
    | some k =>
      (orphFilter epc rest).map fun l => if k = 0 then (c, sz) :: l else l

/-- The `soc_vote_count` comprehension for one sorted orphan constituency
(stv.py lines 335–338): every tallied candidate is looked up in the
constituency map, so any candidate without an entry raises KeyError
(`none`), whether or not they belong to this constituency. -/
def socFor (cmap : List (String × String)) (soc : String) :
    List (String × ℚ) → Option (List (String × ℚ))
  | [] => some []
  | (c, v) :: rest =>
    match alookup cmap c with
    | none => none
    | some cc =>
      (socFor cmap soc rest).map fun l => if cc = soc then (c, v) :: l else l

/-- Build `soc_candidates` (each list sorted by votes descending, stable)
and `soc_candidates_num` for the sorted orphan constituencies. -/
def socBuild (vc : List (String × ℚ)) (cmap : List (String × String)) :
    List (String × ℤ) → Option (List (String × List (String × ℚ)) × ℕ)
  | [] => some ([], 0)
  | (soc, _) :: rest =>
    match socFor cmap soc vc with
    | none => none
    | some lst =>
      let sorted := isort (fun a b => decide (b.2 ≤ a.2)) lst
      (socBuild vc cmap rest).map fun p => ((soc, sorted) :: p.1, p.2 + lst.length)

/-- The inner `while best_candidate is None` loop: visit constituencies
in turn; an empty candidate list only advances the turn.  The fuel is the
number of orphan constituencies, which suffices whenever some list is
non-empty; exhausted fuel (all lists empty) models the source's
non-termination and cannot be reached while `soc_candidates_num > 0`. -/
def rrFind (sortedOrph : List (String × ℤ)) (numOrph : ℕ) (stream : ℕ → ℕ) :
    ℕ → List (String × List (String × ℚ)) → ℕ → ℕ → ℕ →
    Option (String × List (String × List (String × ℚ)) × ℕ × ℕ × ℕ)
  | 0, _, _, _, _ => none
  | g + 1, socs, turn, c, t =>
    let ct := (sortedOrph.getD turn ("", 0)).1
    let lst := (alookup socs ct).getD []
    if lst.isEmpty then
      rrFind sortedOrph numOrph stream g socs ((turn + 1) % numOrph) c t
    else
      match select_first_rnd lst (·.2) stream c t with
      | none => none
      | some (bv, c', t') =>
        some (bv.1, aset socs ct (lst.erase bv), (turn + 1) % numOrph, c', t')

/-- The outer round-robin loop: while seats remain and candidates remain
across the orphan constituencies, pick the best candidate of the next
non-empty constituency and route it through `elect_reject` (whose boolean
result is ignored, as in the source).  Each iteration removes exactly one
candidate, so fuel `soc_candidates_num` suffices. -/
def rrLoop (sortedOrph : List (String × ℤ)) (cmap : List (String × String))
    (quota : ℤ) (stream : ℕ → ℕ) (seats : ℤ) :
    ℕ → List (String × List (String × ℚ)) → ℕ → ℕ → StvState → Option StvState
  | 0, _, n, _, st =>
    if (st.elected.length : ℤ) < seats ∧ 0 < n then none else some st
  | g + 1, socs, n, turn, st =>
    if (st.elected.length : ℤ) < seats ∧ 0 < n then
      match rrFind sortedOrph sortedOrph.length stream sortedOrph.length socs turn st.consumed st.tieDraws with
      | none => none
      | some (best, socs', turn', c', t') =>
        let er := elect_reject best st.voteCount cmap quota st.currentRound
                    st.elected st.rejected st.constituenciesElected
        match er.status with
        | none => none
        | some _ =>
          rrLoop sortedOrph cmap quota stream seats g socs' (n - 1) turn'
            { st with elected := er.elected, rejected := er.rejected,
                      constituenciesElected := er.constituenciesElected,
                      consumed := c', tieDraws := t' }
    else some st

/-- `elect_round_robin` (stv.py lines 307–377): compute the orphan
constituencies; if any, shuffle and sort them by size descending, build
the per-constituency candidate lists from the vote count, and run the
round-robin election loop. -/
def elect_round_robin (constituencies : List (String × ℤ))
    (cmap : List (String × String)) (quota : ℤ) (stream : ℕ → ℕ)
    (seats : ℤ) (st : StvState) : Option StvState :=
  match orphFilter st.constituenciesElected constituencies with
  | none => none
  | some orphans =>
    if orphans.isEmpty then some st
    else
      let p := fisherYates stream orphans st.consumed
      let sortedOrph := isort (fun a b => decide (b.2 ≤ a.2)) p.1
      match socBuild st.voteCount cmap sortedOrph with
      | none => none
      | some bn =>
        rrLoop sortedOrph cmap quota stream seats bn.2 bn.1 bn.2 0
          { st with consumed := p.2 }

/-! ## Zombie pass and the full driver -/

/-- The zombie pass (stv.py lines 517–530): while seats remain and the
eliminated list is non-empty, pop its last element and route it through
`elect_reject`.  Each iteration shortens `eliminated`, so fuel
`|eliminated|` suffices. -/
def zombieLoop (cmap : List (String × String)) (quota : ℤ) (seats : ℤ) :
    ℕ → StvState → Option StvState
  | 0, st =>
    if (st.elected.length : ℤ) < seats ∧ st.eliminated ≠ [] then none
    else some st
  | g + 1, st =>
    if (st.elected.length : ℤ) < seats ∧ st.eliminated ≠ [] then
      match st.eliminated.getLast? with
      | none => none
      | some best =>
        let er := elect_reject best st.voteCount cmap quota st.currentRound
                    st.elected st.rejected st.constituenciesElected
        match er.status with
        | none => none
        | some _ =>
          zombieLoop cmap quota seats g
            { st with eliminated := st.eliminated.dropLast,
                      elected := er.elected, rejected := er.rejected,
                      constituenciesElected := er.constituenciesElected,
                      currentRound := st.currentRound + 1 }
    else some st

/-- `count_stv(ballots, seats, constituencies, constituencies_map,
quota_limit, seed)`, returning the full final state.  `none` models an
uncaught exception.  The random stream stands for the seeded PRNG. -/
def count_stv_state (ballots : List (List String)) (seats : ℤ)
    (constituencies : List (String × ℤ)) (cmap : List (String × String))
    (quota : ℤ) (stream : ℕ → ℕ) : Option StvState :=
  let st0 := mapInitFold cmap emptyState
  match pyThreshold ballots.length seats with
  | none => none
  | some thr =>
    match initialCount ballots st0 with
    | none => none
    | some st1 =>
      let st2 := { st1 with hopefuls := st1.candidates }
      match mainLoop seats (thr : ℚ) cmap quota stream st2.hopefuls.length st2 with
      | none => none
      | some st3 =>
        match (if (st3.elected.length : ℤ) < seats
               then elect_round_robin constituencies cmap quota stream seats st3
               else some st3) with
        | none => none
        | some st4 => zombieLoop cmap quota seats st4.eliminated.length st4

/-- The value returned by `count_stv`: the `elected` sequence and the
final vote count. -/
def count_stv (ballots : List (List String)) (seats : ℤ)
    (constituencies : List (String × ℤ)) (cmap : List (String × String))
    (quota : ℤ) (stream : ℕ → ℕ) :
    Option (List (String × ℕ × ℚ) × List (String × ℚ)) :=
  (count_stv_state ballots seats constituencies cmap quota stream).map
    fun st => (st.elected, st.voteCount)

/-- Sum of the current values of the ballots held in the allocation map
(each ballot is held by at most one candidate in any reachable state, and
exhausted ballots are exactly the ones that stay with a removed
candidate). -/
def heldValuesSum (st : StvState) : ℚ :=
  (st.allocated.map fun p => ((p.2.map fun i => (st.ballots.getD i blankBallot).value).sum)).sum

/-! ## The `Ballot` class attribute semantics (for the weight history)

In `stv.py`, `Ballot.weights = [1.0]` is a *class* attribute and
`add_weight` does `self.weights.append(weight)`: the attribute lookup
finds the class attribute (no instance ever assigns one), so the append
mutates a single list shared by all `Ballot` instances.  `self._value *=
weight`, by contrast, assigns an instance attribute (floats are
immutable), so values are per-instance.  `BallotClass` models the class
together with `n` live instances. -/

structure BallotClass where
  sharedWeights : List ℚ
  values : List ℚ
deriving DecidableEq

/-- `n` freshly constructed `Ballot()` instances: the class attribute
`weights` is `[1.0]`, every instance reads `_value = 1.0`. -/
def newBallots (n : ℕ) : BallotClass := ⟨[1], List.replicate n 1⟩

/-- `instances[i].add_weight(w)`: appends to the shared `weights` list and
multiplies instance `i`'s value by `w`. -/
def add_weight (st : BallotClass) (i : ℕ) (w : ℚ) : BallotClass :=
  ⟨st.sharedWeights ++ [w], st.values.set i (st.values.getD i 1 * w)⟩

/-- Product of a weight history. -/
def weightsProduct (l : List ℚ) : ℚ := l.foldr (fun a b => a * b) 1

/-- Whether a ballot's scan (from `current_holder + 1`) finds a hopeful
next preference, i.e. whether `redistribute_ballots` transfers it. -/
def transfersQ (hopefuls : List String) (b : Ballot) : Bool :=
  (scanFrom b.candidates hopefuls (b.currentHolder + 1)).isSome

/-- The quota condition of the claim: `quota_limit > 0`, the candidate has
an entry in the constituency map, and the elected counter of that
constituency has reached the limit. -/
def overQuota (candidate : String) (cmap : List (String × String))
    (quota : ℤ) (epc : List (String × ℕ)) : Bool :=
  decide (0 < quota) &&
    (match alookup cmap candidate with
     | none => false
     | some cc =>
       match alookup epc cc with
       | none => false
       | some k => decide (quota ≤ (k : ℤ)))

/-- Structural invariant used in proofs: every tallied candidate is in
the candidates list (so a candidate not yet seen has no tally entry). -/
def vcKeysSub (st : StvState) : Prop :=
  ∀ c, (alookup st.voteCount c).isSome = true → c ∈ st.candidates

/-! ## Lemmas: association lists -/

theorem alookup_aset_self {α : Type} (m : List (String × α)) (k : String) (v : α) :
    alookup (aset m k v) k = some v := by
  induction m with
  | nil => simp [aset, alookup]
  | cons hd tl ih =>
    obtain ⟨k', v'⟩ := hd
    by_cases h : k' = k <;> simp [aset, alookup, h, ih]

theorem alookup_aset_ne {α : Type} (m : List (String × α)) (k k' : String) (v : α)
    (h : k ≠ k') : alookup (aset m k v) k' = alookup m k' := by
  induction m with
  | nil => simp [aset, alookup, h]
  | cons hd tl ih =>
    obtain ⟨k0, v0⟩ := hd
    by_cases h0 : k0 = k
    · subst h0; simp [aset, alookup, h]
    · simp [aset, alookup, h0, ih]

theorem asum_aset_some (m : List (String × ℚ)) (k : String) (v w : ℚ)
    (h : alookup m k = some w) : asum (aset m k v) = asum m - w + v := by
  induction m with
  | nil => simp [alookup] at h
  | cons hd tl ih =>
    obtain ⟨k0, v0⟩ := hd
    by_cases h0 : k0 = k
    · simp [alookup, h0] at h
      subst h
      simp [aset, h0, asum]
      ring
    · simp [alookup, h0] at h
      simp [aset, h0, asum] at ih ⊢
      rw [ih h]
      ring

theorem asum_aset_none (m : List (String × ℚ)) (k : String) (v : ℚ)
    (h : alookup m k = none) : asum (aset m k v) = asum m + v := by
  induction m with
  | nil => simp [aset, asum]
  | cons hd tl ih =>
    obtain ⟨k0, v0⟩ := hd
    by_cases h0 : k0 = k
    · simp [alookup, h0] at h
    · simp [alookup, h0] at h
      simp [aset, h0, asum] at ih ⊢
      rw [ih h]
      ring

/-! ## Lemmas: the binary64 rounding model -/

theorem dnl_bounds : ∀ (fuel : ℕ) (q : ℚ), 1 ≤ q → q < 2 ^ fuel →
    (2:ℚ) ^ (dnl fuel q) ≤ q ∧ q < 2 ^ (dnl fuel q + 1) := by
  intro fuel
  induction fuel with
  | zero =>
    intro q h1 h2
    exact absurd (lt_of_le_of_lt h1 h2) (by norm_num)
  | succ f ih =>
    intro q h1 h2
    by_cases hq : q < 2
    · refine ⟨?_, ?_⟩ <;> simp [dnl, hq] <;> linarith
    · push_neg at hq
      have hq2 : 1 ≤ q / 2 := by
        rw [le_div_iff (by norm_num : (0:ℚ) < 2)]
        linarith
      have hq3 : q / 2 < 2 ^ f := by
        rw [div_lt_iff (by norm_num : (0:ℚ) < 2)]
        calc q < 2 ^ (f + 1) := h2
        _ = 2 ^ f * 2 := by ring
      obtain ⟨a, b⟩ := ih (q / 2) hq2 hq3
      have hrw : dnl (f + 1) q = dnl f (q / 2) + 1 := by
        simp [dnl, not_lt.mpr hq]
      refine ⟨?_, ?_⟩ <;> rw [hrw]
      · rw [pow_succ]
        have := mul_le_mul_of_nonneg_right a (by norm_num : (0:ℚ) ≤ 2)
        calc (2:ℚ) ^ dnl f (q / 2) * 2 ≤ q / 2 * 2 := this
        _ = q := by ring
      · rw [pow_succ]
        have := mul_lt_mul_of_pos_right b (by norm_num : (0:ℚ) < 2)
        calc q = q / 2 * 2 := by ring
        _ < 2 ^ (dnl f (q / 2) + 1) * 2 := this

theorem upl_of_one_le (fuel : ℕ) (q : ℚ) (h : 1 ≤ q) : upl fuel q = 0 := by
  cases fuel <;> simp [upl, h]

theorem upl_bounds : ∀ (fuel : ℕ) (q : ℚ), 0 < q → q < 1 → 1 ≤ q * 2 ^ fuel →
    1 ≤ q * 2 ^ (upl fuel q) ∧ q * 2 ^ (upl fuel q) < 2 := by
  intro fuel
  induction fuel with
  | zero =>
    intro q h0 h1 h2
    simp at h2
    exact absurd (lt_of_le_of_lt h2 h1) (by norm_num)
  | succ f ih =>
    intro q h0 h1 h2
    have hrw : upl (f + 1) q = upl f (q * 2) + 1 := by
      simp [upl, not_le.mpr h1]
    by_cases h3 : q * 2 < 1
    · have h4 : 1 ≤ q * 2 * 2 ^ f := by
        calc (1:ℚ) ≤ q * 2 ^ (f + 1) := h2
        _ = q * 2 * 2 ^ f := by ring
      obtain ⟨a, b⟩ := ih (q * 2) (by linarith) h3 h4
      rw [hrw]
      constructor
      · calc (1:ℚ) ≤ q * 2 * 2 ^ upl f (q * 2) := a
        _ = q * 2 ^ (upl f (q * 2) + 1) := by ring
      · calc q * 2 ^ (upl f (q * 2) + 1) = q * 2 * 2 ^ upl f (q * 2) := by ring
        _ < 2 := b
    · push_neg at h3
      rw [hrw, upl_of_one_le f (q * 2) h3]
      norm_num
      constructor <;> linarith

theorem rat_le_num (q : ℚ) (h : 1 ≤ q) : q ≤ (q.num : ℚ) := by
  have hd : (0:ℚ) < (q.den : ℚ) := by
    exact_mod_cast q.den_pos
  have hnum : (q.num : ℚ) = q * (q.den : ℚ) := by
    rw [mul_comm]
    exact_mod_cast (Rat.den_mul_eq_num q).symm
  rw [hnum]
  have hd1 : (1:ℚ) ≤ (q.den : ℚ) := by
    exact_mod_cast q.den_pos
  nlinarith

theorem num_fuel (q : ℚ) (h : 1 ≤ q) : q < 2 ^ q.num.toNat := by
  have h0 : (0:ℚ) < q := lt_of_lt_of_le one_pos h
  have hnum : 0 < q.num := Rat.num_pos.mpr h0
  have h1 : q ≤ (q.num : ℚ) := rat_le_num q h
  have h2 : (q.num : ℚ) = (q.num.toNat : ℚ) := by
    exact_mod_cast congrArg (fun z : ℤ => (z : ℚ)) (Int.toNat_of_nonneg (le_of_lt hnum)).symm
  have h3 : (q.num.toNat : ℚ) < 2 ^ q.num.toNat := by
    exact_mod_cast Nat.lt_two_pow q.num.toNat
  calc q ≤ (q.num : ℚ) := h1
  _ = (q.num.toNat : ℚ) := h2
  _ < 2 ^ q.num.toNat := h3

theorem den_fuel (q : ℚ) (h : 0 < q) : 1 ≤ q * 2 ^ q.den := by
  have hnum : 0 < q.num := Rat.num_pos.mpr h
  have hd : (0:ℚ) < (q.den : ℚ) := by exact_mod_cast q.den_pos
  have hnum1 : (1:ℚ) ≤ (q.num : ℚ) := by exact_mod_cast hnum
  have hqden : q * (q.den : ℚ) = (q.num : ℚ) := by
    rw [mul_comm]
    exact_mod_cast Rat.den_mul_eq_num q
  have h2 : (q.den : ℚ) ≤ 2 ^ q.den := by
    have := Nat.lt_two_pow q.den
    have : (q.den : ℚ) < ((2 ^ q.den : ℕ) : ℚ) := by exact_mod_cast this
    calc (q.den : ℚ) ≤ ((2 ^ q.den : ℕ) : ℚ) := le_of_lt this
    _ = 2 ^ q.den := by push_cast; ring
  calc (1:ℚ) ≤ (q.num : ℚ) := hnum1
  _ = q * (q.den : ℚ) := hqden.symm
  _ ≤ q * 2 ^ q.den := by
      exact mul_le_mul_of_nonneg_left h2 (le_of_lt h)

theorem ilog2_bounds (q : ℚ) (h : 0 < q) :
    (2:ℚ) ^ (ilog2 q) ≤ q ∧ q < (2:ℚ) ^ (ilog2 q + 1) := by
  by_cases h1 : 1 ≤ q
  · obtain ⟨a, b⟩ := dnl_bounds q.num.toNat q h1 (num_fuel q h1)
    rw [ilog2, if_pos h1]
    constructor
    · rw [zpow_natCast]
      exact a
    · have hc : ((dnl q.num.toNat q : ℕ) : ℤ) + 1 = ((dnl q.num.toNat q + 1 : ℕ) : ℤ) := by
        push_cast
        ring
      rw [hc, zpow_natCast]
      exact b
  · push_neg at h1
    obtain ⟨a, b⟩ := upl_bounds q.den q h h1 (den_fuel q h)
    rw [ilog2, if_neg (not_le.mpr h1)]
    have hp : (0:ℚ) < 2 ^ upl q.den q := by positivity
    constructor
    · rw [zpow_neg, zpow_natCast, inv_eq_one_div, div_le_iff hp]
      linarith
    · have hc : -((upl q.den q : ℕ) : ℤ) + 1 = 1 - ((upl q.den q : ℕ) : ℤ) := by ring
      rw [hc, zpow_sub₀ (by norm_num : (2:ℚ) ≠ 0), zpow_one, zpow_natCast, lt_div_iff hp]
      linarith

theorem rhe_ge (q : ℚ) : q - 1/2 ≤ (rhe q : ℚ) := by
  have h1 : (⌊q⌋ : ℚ) ≤ q := Int.floor_le q
  have h2 : q < ⌊q⌋ + 1 := Int.lt_floor_add_one q
  unfold rhe
  split_ifs with a b c <;> push_cast <;> linarith

theorem rhe_le (q : ℚ) : (rhe q : ℚ) ≤ q + 1/2 := by
  have h1 : (⌊q⌋ : ℚ) ≤ q := Int.floor_le q
  have h2 : q < ⌊q⌋ + 1 := Int.lt_floor_add_one q
  unfold rhe
  split_ifs with a b c <;> push_cast <;> linarith

theorem rhe_intCast (n : ℤ) : rhe ((n : ℚ)) = n := by
  unfold rhe
  rw [Int.floor_intCast]
  simp

theorem two_zpow_pos (e : ℤ) : (0:ℚ) < (2:ℚ) ^ e :=
  zpow_pos (by norm_num) e

theorem posRound_close (q : ℚ) (h : 0 < q) :
    |posRound q - q| ≤ (2:ℚ) ^ (ilog2 q - 53) := by
  rw [posRound]
  set e : ℤ := ilog2 q - 52 with he
  set m : ℚ := q * (2:ℚ) ^ (-e) with hm
  have hqm : q = m * (2:ℚ) ^ e := by
    rw [hm, mul_assoc, ← zpow_add₀ (by norm_num : (2:ℚ) ≠ 0)]
    simp
  have hd : (rhe m : ℚ) * (2:ℚ) ^ e - q = ((rhe m : ℚ) - m) * (2:ℚ) ^ e := by
    rw [hqm]
    ring
  rw [hd, abs_mul, abs_of_pos (two_zpow_pos e)]
  have hb : |(rhe m : ℚ) - m| ≤ 1/2 := by
    rw [abs_le]
    constructor
    · linarith [rhe_ge m]
    · linarith [rhe_le m]
  have h2 : (2:ℚ) ^ (ilog2 q - 53) = (1/2) * (2:ℚ) ^ e := by
    rw [he, show ilog2 q - 53 = -1 + (ilog2 q - 52) by ring,
        zpow_add₀ (by norm_num : (2:ℚ) ≠ 0)]
    norm_num
  rw [h2]
  exact mul_le_mul_of_nonneg_right hb (le_of_lt (two_zpow_pos e))

theorem posRound_pos (q : ℚ) (h : 0 < q) : 0 < posRound q := by
  rw [posRound]
  set e : ℤ := ilog2 q - 52 with he
  set m : ℚ := q * (2:ℚ) ^ (-e) with hm
  have hb := ilog2_bounds q h
  have hm52 : (2:ℚ) ^ (52:ℤ) ≤ m := by
    rw [hm, he, show -(ilog2 q - 52) = 52 - ilog2 q by ring]
    calc (2:ℚ) ^ (52:ℤ) = (2:ℚ) ^ (ilog2 q) * (2:ℚ) ^ (52 - ilog2 q) := by
          rw [← zpow_add₀ (by norm_num : (2:ℚ) ≠ 0)]
          norm_num
    _ ≤ q * (2:ℚ) ^ (52 - ilog2 q) :=
          mul_le_mul_of_nonneg_right hb.1 (le_of_lt (two_zpow_pos _))
  have hr : (1:ℚ) ≤ (rhe m : ℚ) := by
    have := rhe_ge m
    have h52 : (4:ℚ) ≤ (2:ℚ) ^ (52:ℤ) := by
      have : ((2:ℚ)) ^ (2:ℤ) ≤ (2:ℚ) ^ (52:ℤ) :=
        zpow_le_zpow_right₀ (by norm_num) (by norm_num)
      calc (4:ℚ) = (2:ℚ) ^ (2:ℤ) := by norm_num
      _ ≤ (2:ℚ) ^ (52:ℤ) := this
    linarith
  have := two_zpow_pos e
  nlinarith

theorem floatRound_pos (q : ℚ) (h : 0 < q) : 0 < floatRound q := by
  rw [floatRound, if_neg (ne_of_gt h), if_pos h]
  exact posRound_pos q h

theorem floatRound_zero : floatRound 0 = 0 := by
  simp [floatRound]

theorem posRound_of_int (q : ℚ) (z : ℤ)
    (hz : q * (2:ℚ) ^ (-(ilog2 q - 52)) = (z : ℚ)) : posRound q = q := by
  rw [posRound, hz, rhe_intCast, ← hz, mul_assoc,
      ← zpow_add₀ (by norm_num : (2:ℚ) ≠ 0)]
  simp

theorem ilog2_nonneg (q : ℚ) (h : 1 ≤ q) : 0 ≤ ilog2 q := by
  rw [ilog2, if_pos h]
  exact Int.natCast_nonneg _

theorem ilog2_lt_of_lt (q : ℚ) (n : ℤ) (h : 0 < q) (h2 : q < (2:ℚ) ^ n) :
    ilog2 q < n := by
  by_contra hc
  push_neg at hc
  have h3 : (2:ℚ) ^ n ≤ (2:ℚ) ^ (ilog2 q) :=
    zpow_le_zpow_right₀ (by norm_num) hc
  have h4 := (ilog2_bounds q h).1
  linarith

theorem floatRound_nat (m : ℕ) (h1 : 1 ≤ m) (h2 : (m:ℚ) < (2:ℚ) ^ (53:ℤ)) :
    floatRound (m:ℚ) = m := by
  have hq1 : (1:ℚ) ≤ (m:ℚ) := by exact_mod_cast h1
  have hq0 : (0:ℚ) < (m:ℚ) := by linarith
  have hk0 : 0 ≤ ilog2 (m:ℚ) := ilog2_nonneg _ hq1
  have hk53 : ilog2 (m:ℚ) < 53 := ilog2_lt_of_lt _ 53 hq0 h2
  have hj : 0 ≤ 52 - ilog2 (m:ℚ) := by omega
  rw [floatRound, if_neg (ne_of_gt hq0), if_pos hq0]
  apply posRound_of_int _ ((m : ℤ) * 2 ^ (52 - ilog2 (m:ℚ)).toNat)
  have hjj : ((52 - ilog2 (m:ℚ)).toNat : ℤ) = 52 - ilog2 (m:ℚ) :=
    Int.toNat_of_nonneg hj
  rw [show -(ilog2 (m:ℚ) - 52) = 52 - ilog2 (m:ℚ) by ring, ← hjj]
  rw [zpow_natCast]
  push_cast
  rw [Int.toNat_natCast]

theorem pyThreshold_isSome (n : ℕ) (seats : ℤ) (h : 1 ≤ seats) :
    pyThreshold n seats =
      some (intTrunc (floatRound (floatRound (n : ℚ) /
              floatRound (floatRound (seats : ℚ) + 1))) + 1) := by
  have h1 : (0:ℚ) < (seats:ℚ) := by exact_mod_cast h
  have h2 := floatRound_pos _ h1
  have h3 : 0 < floatRound (floatRound (seats:ℚ) + 1) := floatRound_pos _ (by linarith)
  rw [pyThreshold, if_neg (ne_of_gt h3)]

theorem nat_lt_two_pow_53 (m : ℕ) (h : m < 2 ^ 53) : (m:ℚ) < (2:ℚ) ^ (53:ℤ) := by
  have h2 : (m:ℚ) < ((2 ^ 53 : ℕ) : ℚ) := by exact_mod_cast h
  calc (m:ℚ) < ((2 ^ 53 : ℕ) : ℚ) := h2
  _ = (2:ℚ) ^ (53:ℕ) := by push_cast; ring
  _ = (2:ℚ) ^ (53:ℤ) := by rw [← zpow_natCast]; norm_num

theorem intTrunc_natCast (m : ℕ) : intTrunc ((m:ℕ):ℚ) = m := by
  rw [intTrunc, if_neg (not_lt.mpr (by positivity))]
  exact_mod_cast Int.floor_natCast m

theorem trunc_floatRound_div (n d : ℕ) (hd : 1 ≤ d) (hn : n < 2 ^ 53) :
    intTrunc (floatRound ((n:ℚ) / (d:ℚ))) = ((n / d : ℕ) : ℤ) := by
  have hdq : (0:ℚ) < (d:ℚ) := by exact_mod_cast hd
  rcases Nat.eq_zero_or_pos n with h0 | h1
  · subst h0
    simp [floatRound_zero, intTrunc]
  · have hq0 : (0:ℚ) < (n:ℚ) / (d:ℚ) := by positivity
    by_cases hdvd : d ∣ n
    · have hqe : (n:ℚ) / (d:ℚ) = ((n / d : ℕ) : ℚ) :=
        (Nat.cast_div hdvd (ne_of_gt hdq)).symm
      have hF1 : 1 ≤ n / d := (Nat.one_le_div_iff hd).mpr (Nat.le_of_dvd h1 hdvd)
      have hFlt : ((n / d : ℕ) : ℚ) < (2:ℚ) ^ (53:ℤ) :=
        nat_lt_two_pow_53 _ (lt_of_le_of_lt (Nat.div_le_self n d) hn)
      rw [hqe, floatRound_nat _ hF1 hFlt, intTrunc_natCast]
    · set q : ℚ := (n:ℚ) / (d:ℚ) with hq
      set F : ℕ := n / d with hF
      set r : ℕ := n % d with hr
      have hnd : d * F + r = n := Nat.div_add_mod n d
      have hr1 : 1 ≤ r :=
        Nat.one_le_iff_ne_zero.mpr (fun hz => hdvd (Nat.dvd_of_mod_eq_zero hz))
      have hr2 : r < d := Nat.mod_lt n (by omega)
      have hcast : (n:ℚ) = (d:ℚ) * (F:ℚ) + (r:ℚ) := by
        exact_mod_cast hnd.symm
      have hqF : q = (F:ℚ) + (r:ℚ) / (d:ℚ) := by
        rw [hq, hcast]
        field_simp
        ring
      have hqd : q * (d:ℚ) = (n:ℚ) := by
        rw [hq]
        field_simp
      have hclose := posRound_close q hq0
      have hb := ilog2_bounds q hq0
      have hEq : (2:ℚ) ^ (ilog2 q - 53) = (2:ℚ) ^ (ilog2 q) / (2:ℚ) ^ (53:ℤ) :=
        zpow_sub₀ (by norm_num) _ _
      have h53 : (0:ℚ) < (2:ℚ) ^ (53:ℤ) := two_zpow_pos _
      have hE : (2:ℚ) ^ (ilog2 q - 53) < 1 / (d:ℚ) := by
        rw [hEq, div_lt_div_iff h53 hdq]
        have h1d : (2:ℚ) ^ (ilog2 q) * (d:ℚ) ≤ q * (d:ℚ) :=
          mul_le_mul_of_nonneg_right hb.1 (le_of_lt hdq)
        have h2d : (n:ℚ) < (2:ℚ) ^ (53:ℤ) := nat_lt_two_pow_53 n hn
        rw [hqd] at h1d
        linarith
      have hfl : floatRound q = posRound q := by
        rw [floatRound, if_neg (ne_of_gt hq0), if_pos hq0]
      have habs := abs_le.mp hclose
      have hrd : (1:ℚ) ≤ (r:ℚ) := by exact_mod_cast hr1
      have hrd2 : (r:ℚ) + 1 ≤ (d:ℚ) := by exact_mod_cast hr2
      have hx : (1:ℚ) / (d:ℚ) ≤ (r:ℚ) / (d:ℚ) := by
        rw [div_le_div_iff hdq hdq]
        nlinarith
      have hy : ((r:ℚ) + 1) / (d:ℚ) ≤ 1 := by
        rw [div_le_one hdq]
        linarith
      have hz : (r:ℚ) / (d:ℚ) + 1 / (d:ℚ) = ((r:ℚ) + 1) / (d:ℚ) := by ring
      have hP1 : (F:ℚ) < floatRound q := by
        rw [hfl]
        linarith [habs.1]
      have hP2 : floatRound q < (F:ℚ) + 1 := by
        rw [hfl]
        linarith [habs.2]
      have hP0 : ¬ (floatRound q < 0) := by
        push_neg
        have hF0 : (0:ℚ) ≤ (F:ℚ) := by positivity
        linarith
      rw [intTrunc, if_neg hP0, Int.floor_eq_iff]
      constructor
      · push_cast
        linarith
      · push_cast
        linarith

/-- C10 (amended): the threshold `int(len(ballots) / (seats + 1.0)) + 1`
is computed with binary64 float division, so it equals
`floor(n / (seats+1)) + 1` only while the operands and the rounded
quotient stay within float precision: it holds for all `n < 2^53` and
`1 ≤ s` with `s + 1 < 2^53` (the claim as stated, for every `n ≥ 0`,
fails: see the counterexample at `n = 2^54 - 1`, `s = 1`, where the
conversion of `n` to float rounds up and the computed threshold exceeds
`floor(n/(s+1)) + 1` by one). -/
theorem C10_threshold_eq_floor (n s : ℕ) (hs : 1 ≤ s) (hn : n < 2 ^ 53)
    (hs2 : s + 1 < 2 ^ 53) :
    pyThreshold n (s : ℤ) = some (((n / (s + 1) : ℕ) : ℤ) + 1) := by
  have hsq : (((s:ℤ)) : ℚ) = ((s:ℕ) : ℚ) := by push_cast; ring
  have hfr_s : floatRound (((s:ℤ)):ℚ) = ((s:ℕ):ℚ) := by
    rw [hsq]
    exact floatRound_nat s hs (nat_lt_two_pow_53 s (by omega))
  have hs1q : ((s:ℕ):ℚ) + 1 = ((s + 1 : ℕ) : ℚ) := by push_cast; ring
  have hfr_s1 : floatRound (((s:ℕ):ℚ) + 1) = ((s + 1 : ℕ):ℚ) := by
    rw [hs1q]
    exact floatRound_nat (s + 1) (by omega) (nat_lt_two_pow_53 _ hs2)
  have hd0 : ((s + 1 : ℕ):ℚ) ≠ 0 := by positivity
  have hfr_n : floatRound ((n:ℕ):ℚ) = ((n:ℕ):ℚ) := by
    rcases Nat.eq_zero_or_pos n with h0 | h1
    · subst h0
      simpa using floatRound_zero
    · exact floatRound_nat n h1 (nat_lt_two_pow_53 n hn)
  rw [pyThreshold, hfr_s, hfr_s1, if_neg hd0, hfr_n,
      trunc_floatRound_div n (s + 1) (by omega) hn]

set_option maxRecDepth 1000000 in
/-- C10 counterexample input: with `n = 2^54 - 1` ballots and one seat,
`float(n)` rounds up to `2^54`, so the code computes threshold
`2^53 + 1` while `floor(n/2) + 1 = 2^53`. -/
theorem C10_float_threshold_counterexample :
    pyThreshold 18014398509481983 1 ≠
      some (((18014398509481983 / 2 : ℕ) : ℤ) + 1) := by
  with_unfolding_all decide

/-- Witness: the amended C10 at `n = 7`, `s = 2`. -/
theorem C10_threshold_eq_floor_witness :
    pyThreshold 7 (2:ℤ) = some (((7 / 3 : ℕ) : ℤ) + 1) :=
  C10_threshold_eq_floor 7 2 (by norm_num) (by norm_num) (by norm_num)

theorem initialCount_none (ballots : List (List String)) (st : StvState)
    (h : [] ∈ ballots) : initialCount ballots st = none := by
  induction ballots generalizing st with
  | nil => simp at h
  | cons b rest ih =>
    match b, h with
    | [], _ => rfl
    | c :: cs, h =>
      have hmem : [] ∈ rest := by
        rcases List.mem_cons.mp h with h1 | h1
        · exact absurd h1.symm (by simp)
        · exact h1
      rw [initialCount]
      cases hlk : alookup (regCands (c :: cs) st).voteCount c
      · rfl
      · simp only [hlk]
        exact ih _ hmem

/-- C9 (amended): `count_stv` performs no input validation and surfaces
no error before counting.  An empty ballot sequence with any positive
number of seats returns a normal empty result (no error); `seats = -1`
fails only because the threshold computation divides by zero
(ZeroDivisionError, not a validation error); a ballot with an empty
preference list raises IndexError *during* the initial count; and a
constituency map referencing a constituency absent from the
constituencies table causes no error at all.  The claim as stated —
errors surfaced to the caller before counting begins — is refuted by
`C9_empty_ballots_no_error`. -/
theorem C9_no_input_validation :
    (∀ (seats quota : ℤ) (stream : ℕ → ℕ), 1 ≤ seats →
      count_stv [] seats [] [] quota stream = some ([], [])) ∧
    (∀ (ballots : List (List String)) (cs : List (String × ℤ))
        (cmap : List (String × String)) (quota : ℤ) (stream : ℕ → ℕ),
      count_stv ballots (-1) cs cmap quota stream = none) ∧
    (∀ (ballots : List (List String)) (seats : ℤ) (cs : List (String × ℤ))
        (cmap : List (String × String)) (quota : ℤ) (stream : ℕ → ℕ),
      1 ≤ seats → [] ∈ ballots →
      count_stv ballots seats cs cmap quota stream = none) ∧
    (∀ (stream : ℕ → ℕ),
      count_stv [["a"]] 1 [] [("a", "X")] 0 stream =
        some ([("a", 1, 1)], [("a", 1)])) := by
  refine ⟨?_, ?_, ?_, ?_⟩
  · intro seats quota stream hs
    have hth := pyThreshold_isSome 0 seats hs
    have hseats : (0:ℤ) < seats := by omega
    simp only [count_stv, count_stv_state, mapInitFold, emptyState,
               List.length_nil, hth, initialCount, mainLoop, List.length_nil,
               Nat.cast_zero, lt_self_iff_false, and_false, if_false,
               elect_round_robin, orphFilter, List.isEmpty_nil, if_true,
               zombieLoop, ne_eq, not_true_eq_false, and_true]
    simp [hseats, zombieLoop]
  · intro ballots cs cmap quota stream
    have hd : floatRound (floatRound ((-1:ℤ):ℚ) + 1) = 0 := by
      with_unfolding_all rfl
    have hnone : pyThreshold ballots.length (-1) = none := by
      rw [pyThreshold, if_pos hd]
    simp [count_stv, count_stv_state, hnone]
  · intro ballots seats cs cmap quota stream hs hmem
    have hth := pyThreshold_isSome ballots.length seats hs
    simp [count_stv, count_stv_state, hth,
          initialCount_none ballots _ hmem]
  · intro stream
    with_unfolding_all rfl

/-- C9 counterexample: an empty ballot sequence is not rejected —
`count_stv` returns a normal (empty) result instead of surfacing an
`EmptyBallots` error to the caller. -/
theorem C9_empty_ballots_no_error :
    count_stv [] 1 [] [] 0 (fun _ => 0) = some ([], []) := by
  with_unfolding_all rfl

/-- Witness for the amended C9, instantiating each conjunct. -/
theorem C9_no_input_validation_witness :
    count_stv [] 1 [] [] 5 (fun _ => 1) = some ([], []) ∧
    count_stv [["b"]] (-1) [] [] 0 (fun _ => 0) = none ∧
    count_stv [["b"], []] 1 [] [] 0 (fun _ => 0) = none ∧
    count_stv [["a"]] 1 [] [("a", "X")] 0 (fun _ => 3) =
      some ([("a", 1, 1)], [("a", 1)]) :=
  ⟨C9_no_input_validation.1 1 5 _ (by norm_num),
   C9_no_input_validation.2.1 _ _ _ _ _,
   C9_no_input_validation.2.2.1 _ 1 _ _ _ _ (by norm_num) (by simp),
   C9_no_input_validation.2.2.2 _⟩

/-- C4 (amended): `elect_reject` returns `False` iff `quota_limit > 0`,
the candidate has an entry in the constituency map, and the elected
counter of that constituency has reached the limit; exactly then it
appends `(candidate, round, tally[candidate])` to `rejected` and leaves
`elected` (and the counters) unchanged; in every other case it appends
the same triple to `elected` and returns `True` — *provided* the
lookups the code performs are defined: the candidate has a tally entry,
the mapped constituency (if any) has an elected counter, and the
candidate has a map entry whenever the map is non-empty.  Outside that
domain the call raises KeyError instead of returning (see the C4
counterexample). -/
theorem C4_elect_reject_quota (candidate : String) (vc : List (String × ℚ))
    (cmap : List (String × String)) (quota : ℤ) (round : ℕ)
    (elected rejected : List (String × ℕ × ℚ)) (epc : List (String × ℕ)) (v : ℚ)
    (hv : alookup vc candidate = some v)
    (hepc : ∀ cc, alookup cmap candidate = some cc → (alookup epc cc).isSome = true)
    (hmap : cmap = [] ∨ (alookup cmap candidate).isSome = true) :
    ((elect_reject candidate vc cmap quota round elected rejected epc).status = some false ↔
      overQuota candidate cmap quota epc = true) ∧
    (overQuota candidate cmap quota epc = true →
      elect_reject candidate vc cmap quota round elected rejected epc =
        ⟨some false, elected, rejected ++ [(candidate, round, v)], epc⟩) ∧
    (overQuota candidate cmap quota epc = false →
      (elect_reject candidate vc cmap quota round elected rejected epc).status = some true ∧
      (elect_reject candidate vc cmap quota round elected rejected epc).elected =
        elected ++ [(candidate, round, v)] ∧
      (elect_reject candidate vc cmap quota round elected rejected epc).rejected = rejected) := by
  cases cmap with
  | nil =>
    have hoq : overQuota candidate [] quota epc = false := by
      simp [overQuota, alookup]
    simp [elect_reject, alookup, hv, hoq]
  | cons p ps =>
    rcases hmap with hm | hm
    · exact absurd hm (by simp)
    · obtain ⟨cc, hc⟩ := Option.isSome_iff_exists.mp hm
      obtain ⟨k, he⟩ := Option.isSome_iff_exists.mp (hepc cc hc)
      by_cases hq : 0 < quota
      · by_cases hk : quota ≤ (k:ℤ)
        · have hoq : overQuota candidate (p :: ps) quota epc = true := by
            simp [overQuota, hq, hc, he, hk]
          simp [elect_reject, hq, hc, he, hk, hv, hoq]
        · have hoq : overQuota candidate (p :: ps) quota epc = false := by
            simp [overQuota, hq, hc, he, hk]
          simp [elect_reject, hq, hc, he, hk, hv, hoq]
      · have hoq : overQuota candidate (p :: ps) quota epc = false := by
          simp [overQuota, hq]
        simp [elect_reject, hq, hc, he, hv, hoq]

/-- C4 counterexample: with everything empty (`quota_limit = 0`, empty
map) the quota condition is false, yet the call does *not* append to
`elected` and return `True`: the candidate has no tally entry, so
`vote_count[candidate]` raises KeyError and nothing is appended. -/
theorem C4_keyerror_counterexample :
    (elect_reject "a" [] [] 0 1 [] [] []).status ≠ some true ∧
    (elect_reject "a" [] [] 0 1 [] [] []).elected = [] := by
  with_unfolding_all decide

/-- Witness for the amended C4: a quota rejection (`quota_limit = 1`,
constituency X already has one elected member) and a normal election. -/
theorem C4_elect_reject_quota_witness :
    elect_reject "a" [("a", 2)] [("a", "X")] 1 4 [] [] [("X", 1)] =
      ⟨some false, [], [("a", 4, 2)], [("X", 1)]⟩ ∧
    (elect_reject "b" [("b", 3)] [] 1 2 [] [] []).status = some true := by
  constructor
  · exact (C4_elect_reject_quota "a" [("a", 2)] [("a", "X")] 1 4 [] [] [("X", 1)] 2
      (by with_unfolding_all decide)
      (by
        intro cc h
        rw [show alookup [("a", "X")] "a" = some "X" from rfl] at h
        injection h with h2
        subst h2
        rfl)
      (Or.inr (by rfl))).2.1 (by with_unfolding_all decide)
  · exact ((C4_elect_reject_quota "b" [("b", 3)] [] 1 2 [] [] [] 3
      (by with_unfolding_all decide)
      (by intro cc h; simp [alookup] at h)
      (Or.inl rfl)).2.2 (by with_unfolding_all decide)).1

theorem socFor_none (cmap : List (String × String)) (soc : String)
    (vc : List (String × ℚ)) (c : String) (v : ℚ)
    (hmem : (c, v) ∈ vc) (hc : alookup cmap c = none) :
    socFor cmap soc vc = none := by
  induction vc with
  | nil => simp at hmem
  | cons hd rest ih =>
    obtain ⟨c0, v0⟩ := hd
    rcases List.mem_cons.mp hmem with h1 | h1
    · obtain ⟨hc1, hv1⟩ := Prod.mk.injEq .. ▸ h1
      injection h1 with h1a h1b
      rw [socFor, show c0 = c from h1a.symm ▸ rfl, hc]
    · rw [socFor]
      cases h0 : alookup cmap c0
      · rfl
      · simp only [h0, ih h1, Option.map_none']

theorem lswap_length {α : Type} (l : List α) (i j : ℕ) :
    (lswap l i j).length = l.length := by
  rw [lswap]
  cases h1 : l.get? i <;> cases h2 : l.get? j <;> simp

theorem fyAux_length {α : Type} (stream : ℕ → ℕ) :
    ∀ (i : ℕ) (l : List α) (c : ℕ), ((fyAux stream i l c).1).length = l.length := by
  intro i
  induction i with
  | zero => intro l c; rfl
  | succ k ih =>
    intro l c
    rw [fyAux, ih, lswap_length]

theorem insertLe_length {α : Type} (le : α → α → Bool) (x : α) (l : List α) :
    (insertLe le x l).length = l.length + 1 := by
  induction l with
  | nil => rfl
  | cons y ys ih =>
    rw [insertLe]
    by_cases h : le x y <;> simp [h, ih]

theorem isort_length {α : Type} (le : α → α → Bool) (l : List α) :
    (isort le l).length = l.length := by
  induction l with
  | nil => rfl
  | cons y ys ih => rw [isort, insertLe_length, ih, List.length_cons]

/-- C7 (amended): `count_stv` treats candidates without a constituency
entry as unconstrained only while the constituency map is entirely
empty.  With an empty map, electing any candidate appends the triple to
`elected`, returns `True` and leaves `elected_per_constituency`
unchanged.  With a *non-empty* partial map, `elect_reject` on a
candidate without an entry appends the triple to `elected` and then
raises KeyError (`if constituencies_map:` is a truthiness test followed
by an unconditional lookup), aborting the count; and the round-robin
filler, whenever it has at least one orphan constituency, raises
KeyError as soon as any tallied candidate lacks a map entry.  The claim
as stated is refuted by `C7_partial_map_keyerror`. -/
theorem C7_unconstrained_only_when_map_empty :
    (∀ (candidate : String) (vc : List (String × ℚ)) (v : ℚ) (quota : ℤ)
        (round : ℕ) (elected rejected : List (String × ℕ × ℚ))
        (epc : List (String × ℕ)),
      alookup vc candidate = some v →
      elect_reject candidate vc [] quota round elected rejected epc =
        ⟨some true, elected ++ [(candidate, round, v)], rejected, epc⟩) ∧
    (∀ (candidate : String) (vc : List (String × ℚ)) (v : ℚ)
        (p : String × String) (ps : List (String × String)) (quota : ℤ)
        (round : ℕ) (elected rejected : List (String × ℕ × ℚ))
        (epc : List (String × ℕ)),
      alookup vc candidate = some v →
      alookup (p :: ps) candidate = none →
      elect_reject candidate vc (p :: ps) quota round elected rejected epc =
        ⟨none, elected ++ [(candidate, round, v)], rejected, epc⟩) ∧
    (∀ (cs : List (String × ℤ)) (cmap : List (String × String)) (quota : ℤ)
        (stream : ℕ → ℕ) (seats : ℤ) (st : StvState)
        (orphans : List (String × ℤ)) (c : String) (v : ℚ),
      orphFilter st.constituenciesElected cs = some orphans →
      orphans ≠ [] →
      (c, v) ∈ st.voteCount →
      alookup cmap c = none →
      elect_round_robin cs cmap quota stream seats st = none) := by
  refine ⟨?_, ?_, ?_⟩
  · intro candidate vc v quota round elected rejected epc hv
    simp [elect_reject, alookup, hv]
  · intro candidate vc v p ps quota round elected rejected epc hv hc
    simp [elect_reject, hv, hc]
  · intro cs cmap quota stream seats st orphans c v ho hne hmem hc
    rw [elect_round_robin, ho]
    simp only [List.isEmpty_iff, hne, if_false]
    have hlen : (isort (fun a b => decide (b.2 ≤ a.2))
        (fisherYates stream orphans st.consumed).1).length = orphans.length := by
      rw [isort_length]
      exact fyAux_length stream _ orphans st.consumed
    cases hs : isort (fun a b => decide (b.2 ≤ a.2))
        (fisherYates stream orphans st.consumed).1 with
    | nil =>
      rw [hs] at hlen
      cases orphans with
      | nil => exact absurd rfl hne
      | cons o os => simp at hlen
    | cons s rest =>
      rw [socBuild, socFor_none cmap s.1 st.voteCount c v hmem hc]

/-- C7 counterexample: a run with a non-empty partial constituency map
(candidate `b` has no entry).  The main loop ends with no one elected,
the round-robin filler is invoked with orphan constituency `X`, and the
`soc_vote_count` comprehension looks `b` up in the map: KeyError — the
count fails instead of treating `b` as unconstrained. -/
theorem C7_partial_map_keyerror :
    count_stv [["a"], ["b"]] 1 [("X", 1)] [("a", "X")] 0 (fun _ => 0) = none := by
  with_unfolding_all rfl

/-- Witness for the amended C7, instantiating all three conjuncts. -/
theorem C7_unconstrained_only_when_map_empty_witness :
    elect_reject "z" [("z", 7)] [] 9 2 [] [] [("Q", 0)] =
      ⟨some true, [("z", 2, 7)], [], [("Q", 0)]⟩ ∧
    elect_reject "b" [("b", 5)] [("a", "X")] 0 3 [] [] [("X", 0)] =
      ⟨none, [("b", 3, 5)], [], [("X", 0)]⟩ ∧
    elect_round_robin [("X", 1)] [("a", "X")] 0 (fun _ => 0) 1
      { emptyState with voteCount := [("a", 1), ("b", 1)],
                        constituenciesElected := [("X", 0)] } = none := by
  refine ⟨?_, ?_, ?_⟩
  · exact C7_unconstrained_only_when_map_empty.1 "z" [("z", 7)] 7 9 2 [] [] [("Q", 0)] rfl
  · exact C7_unconstrained_only_when_map_empty.2.1 "b" [("b", 5)] 5 ("a", "X") [] 0 3 [] []
      [("X", 0)] rfl rfl
  · exact C7_unconstrained_only_when_map_empty.2.2 [("X", 1)] [("a", "X")] 0 (fun _ => 0) 1
      _ [("X", 1)] "b" 1 rfl (by simp) (by simp) rfl

/-! ## Lemmas: the tally total is preserved by the engine (for C2) -/

theorem alookup_aset_isSome {α : Type} (m : List (String × α)) (k k' : String)
    (v : α) (h : (alookup (aset m k v) k').isSome = true) :
    k' = k ∨ (alookup m k').isSome = true := by
  by_cases he : k' = k
  · exact Or.inl he
  · rw [alookup_aset_ne m k k' v (fun hx => he hx.symm)] at h
    exact Or.inr h

theorem applyMoves_asum (selected : String) :
    ∀ (moves : List ((String × ℚ) × ℕ)) (vc vc' : List (String × ℚ)),
      applyMoves selected moves vc = some vc' → asum vc' = asum vc := by
  intro moves
  induction moves with
  | nil =>
    intro vc vc' h
    rw [applyMoves] at h
    injection h with h
    rw [h]
  | cons mv rest ih =>
    obtain ⟨⟨recipient, v⟩, times⟩ := mv
    intro vc vc' h
    rw [applyMoves] at h
    set total := round15 ((times : ℚ) * v) with ht
    have hvc1 : ∀ vc1 : List (String × ℚ),
        (vc1 = match alookup vc recipient with
               | some old => aset vc recipient (old + total)
               | none => aset vc recipient total) →
        asum vc1 = asum vc + total := by
      intro vc1 h1
      cases hl : alookup vc recipient with
      | some old =>
        rw [hl] at h1
        rw [h1, asum_aset_some vc recipient _ old hl]
        ring
      | none =>
        rw [hl] at h1
        rw [h1, asum_aset_none vc recipient _ hl]
    cases hl : alookup vc recipient with
    | some old =>
      rw [hl] at h
      cases hsel : alookup (aset vc recipient (old + total)) selected with
      | none => rw [hsel] at h; exact absurd h (by simp)
      | some so =>
        rw [hsel] at h
        have h2 := ih _ _ h
        rw [h2, asum_aset_some _ selected _ so hsel,
            asum_aset_some vc recipient _ old hl]
        ring
    | none =>
      rw [hl] at h
      cases hsel : alookup (aset vc recipient total) selected with
      | none => rw [hsel] at h; exact absurd h (by simp)
      | some so =>
        rw [hsel] at h
        have h2 := ih _ _ h
        rw [h2, asum_aset_some _ selected _ so hsel,
            asum_aset_none vc recipient _ hl]
        ring

theorem redistribute_asum (selected : String) (weight : ℚ)
    (hopefuls : List String) (ballots : List Ballot)
    (allocated : List (String × List ℕ)) (vc : List (String × ℚ))
    (bs : List Ballot) (al : List (String × List ℕ)) (vc' : List (String × ℚ))
    (h : redistribute_ballots selected weight hopefuls ballots allocated vc =
          some (bs, al, vc')) : asum vc' = asum vc := by
  simp only [redistribute_ballots] at h
  split at h
  · exact absurd h (by simp)
  · split at h
    · exact absurd h (by simp)
    · rename_i ids hids vc2 happ
      have hv : vc' = vc2 := by
        have := congrArg (fun p : List Ballot × List (String × List ℕ) × List (String × ℚ) => p.2.2)
          (Option.some.inj h)
        simpa using this.symm
      rw [hv]
      exact applyMoves_asum selected _ vc vc2 happ

theorem mainRound_asum (threshold : ℚ) (cmap : List (String × String))
    (quota : ℤ) (stream : ℕ → ℕ) (st st' : StvState)
    (h : mainRound threshold cmap quota stream st = some st') :
    asum st'.voteCount = asum st.voteCount := by
  simp only [mainRound] at h
  split at h
  · exact absurd h (by simp)
  · split at h
    · exact absurd h (by simp)
    · split at h
      · split at h
        · exact absurd h (by simp)
        · split at h
          · exact absurd h (by simp)
          · split at h
            · split at h
              · exact absurd h (by simp)
              · rename_i hred
                have hst := Option.some.inj h
                rw [← hst]
                exact redistribute_asum _ _ _ _ _ _ _ _ _ hred
            · split at h
              · split at h
                · exact absurd h (by simp)
                · split at h
                  · exact absurd h (by simp)
                  · rename_i hred
                    have hst := Option.some.inj h
                    rw [← hst]
                    exact redistribute_asum _ _ _ _ _ _ _ _ _ hred
              · have hst := Option.some.inj h
                rw [← hst]
      · split at h
        · exact absurd h (by simp)
        · split at h
          · exact absurd h (by simp)
          · rename_i hred
            have hst := Option.some.inj h
            rw [← hst]
            exact redistribute_asum _ _ _ _ _ _ _ _ _ hred

theorem mainLoop_asum (seats : ℤ) (threshold : ℚ) (cmap : List (String × String))
    (quota : ℤ) (stream : ℕ → ℕ) :
    ∀ (fuel : ℕ) (st st' : StvState),
      mainLoop seats threshold cmap quota stream fuel st = some st' →
      asum st'.voteCount = asum st.voteCount := by
  intro fuel
  induction fuel with
  | zero =>
    intro st st' h
    rw [mainLoop] at h
    split at h
    · exact absurd h (by simp)
    · rw [Option.some.inj h]
  | succ f ih =>
    intro st st' h
    rw [mainLoop] at h
    split at h
    · cases hr : mainRound threshold cmap quota stream st with
      | none => rw [hr] at h; exact absurd h (by simp)
      | some st1 =>
        rw [hr] at h
        rw [ih st1 st' h, mainRound_asum threshold cmap quota stream st st1 hr]
    · rw [Option.some.inj h]

theorem rrLoop_voteCount (sortedOrph : List (String × ℤ))
    (cmap : List (String × String)) (quota : ℤ) (stream : ℕ → ℕ) (seats : ℤ) :
    ∀ (fuel : ℕ) (socs : List (String × List (String × ℚ))) (n turn : ℕ)
      (st st' : StvState),
      rrLoop sortedOrph cmap quota stream seats fuel socs n turn st = some st' →
      st'.voteCount = st.voteCount := by
  intro fuel
  induction fuel with
  | zero =>
    intro socs n turn st st' h
    rw [rrLoop] at h
    split at h
    · exact absurd h (by simp)
    · rw [Option.some.inj h]
  | succ f ih =>
    intro socs n turn st st' h
    simp only [rrLoop] at h
    split at h
    · split at h
      · exact absurd h (by simp)
      · split at h
        · exact absurd h (by simp)
        · have := ih _ _ _ _ _ h
          simpa using this
    · rw [Option.some.inj h]

theorem elect_round_robin_voteCount (constituencies : List (String × ℤ))
    (cmap : List (String × String)) (quota : ℤ) (stream : ℕ → ℕ) (seats : ℤ)
    (st st' : StvState)
    (h : elect_round_robin constituencies cmap quota stream seats st = some st') :
    st'.voteCount = st.voteCount := by
  simp only [elect_round_robin] at h
  split at h
  · exact absurd h (by simp)
  · split at h
    · rw [Option.some.inj h]
    · split at h
      · exact absurd h (by simp)
      · have := rrLoop_voteCount _ _ _ _ _ _ _ _ _ _ _ h
        simpa using this

theorem zombieLoop_voteCount (cmap : List (String × String)) (quota seats : ℤ) :
    ∀ (fuel : ℕ) (st st' : StvState),
      zombieLoop cmap quota seats fuel st = some st' →
      st'.voteCount = st.voteCount := by
  intro fuel
  induction fuel with
  | zero =>
    intro st st' h
    rw [zombieLoop] at h
    split at h
    · exact absurd h (by simp)
    · rw [Option.some.inj h]
  | succ f ih =>
    intro st st' h
    simp only [zombieLoop] at h
    split at h
    · split at h
      · exact absurd h (by simp)
      · split at h
        · exact absurd h (by simp)
        · have := ih _ _ h
          simpa using this
    · rw [Option.some.inj h]

theorem vcKeysSub_none (st : StvState) (h : vcKeysSub st) (c : String)
    (hc : c ∉ st.candidates) : alookup st.voteCount c = none := by
  cases hl : alookup st.voteCount c with
  | none => rfl
  | some v => exact absurd (h c (by rw [hl]; rfl)) hc

theorem regCands_spec : ∀ (cl : List String) (st : StvState), vcKeysSub st →
    vcKeysSub (regCands cl st) ∧
    asum (regCands cl st).voteCount = asum st.voteCount ∧
    (regCands cl st).elected = st.elected := by
  intro cl
  induction cl with
  | nil =>
    intro st h
    exact ⟨h, rfl, rfl⟩
  | cons c rest ih =>
    intro st h
    simp only [regCands]
    by_cases hc : c ∈ st.candidates
    · simp only [hc, if_true]
      by_cases ha : (alookup st.allocated c).isSome = true
      · rw [if_pos ha]
        exact ih st h
      · rw [if_neg ha]
        obtain ⟨h1, h2, h3⟩ := ih { st with allocated := aset st.allocated c [] }
          (fun d hd => h d hd)
        exact ⟨h1, h2, h3⟩
    · have hnone := vcKeysSub_none st h c hc
      simp only [hc, if_false]
      have hsub : vcKeysSub
          { st with candidates := st.candidates ++ [c], voteCount := aset st.voteCount c 0 } := by
        intro d hd
        rcases alookup_aset_isSome st.voteCount c d 0 hd with he | he
        · subst he
          exact List.mem_append_right _ (List.mem_singleton.mpr rfl)
        · exact List.mem_append_left _ (h d he)
      have hsum : asum (aset st.voteCount c 0) = asum st.voteCount := by
        rw [asum_aset_none st.voteCount c 0 hnone]
        ring
      by_cases ha : (alookup st.allocated c).isSome = true
      · rw [if_pos ha]
        obtain ⟨h1, h2, h3⟩ := ih _ hsub
        refine ⟨h1, ?_, h3⟩
        rw [h2]
        exact hsum
      · rw [if_neg ha]
        obtain ⟨h1, h2, h3⟩ := ih
          { st with candidates := st.candidates ++ [c], voteCount := aset st.voteCount c 0,
                    allocated := aset st.allocated c [] }
          (fun d hd => hsub d hd)
        refine ⟨h1, ?_, h3⟩
        rw [h2]
        exact hsum

theorem initialCount_spec : ∀ (ballots : List (List String)) (st st' : StvState),
    vcKeysSub st → initialCount ballots st = some st' →
    asum st'.voteCount = asum st.voteCount + (ballots.length : ℚ) ∧
    vcKeysSub st' ∧ st'.elected = st.elected := by
  intro ballots
  induction ballots with
  | nil =>
    intro st st' h hin
    rw [initialCount] at hin
    rw [← Option.some.inj hin]
    exact ⟨by simp, h, rfl⟩
  | cons cands rest ih =>
    intro st st' h hin
    match cands, hin with
    | [], hin => simp [initialCount] at hin
    | selected :: cs, hin =>
      rw [initialCount] at hin
      obtain ⟨hsub1, hsum1, hel1⟩ := regCands_spec (selected :: cs) st h
      cases hv : alookup (regCands (selected :: cs) st).voteCount selected with
      | none =>
        rw [hv] at hin
        exact absurd hin (by simp)
      | some v =>
        simp only [hv] at hin
        set st1 := regCands (selected :: cs) st with hst1
        set stN : StvState :=
          { st1 with
            ballots := st1.ballots ++ [⟨selected :: cs, 0, 1⟩]
            allocated := aset st1.allocated selected
              (((alookup st1.allocated selected).getD []) ++ [st1.ballots.length])
            voteCount := aset st1.voteCount selected (v + 1) } with hstN
        have hsubN : vcKeysSub stN := by
          intro d hd
          rcases alookup_aset_isSome st1.voteCount selected d (v + 1) hd with he | he
          · subst he
            exact hsub1 d (by rw [hv]; rfl)
          · exact hsub1 d he
        have hsumN : asum stN.voteCount = asum st1.voteCount + 1 := by
          have : asum (aset st1.voteCount selected (v + 1)) =
              asum st1.voteCount - v + (v + 1) := asum_aset_some _ _ _ _ hv
          calc asum stN.voteCount = asum st1.voteCount - v + (v + 1) := this
          _ = asum st1.voteCount + 1 := by ring
        obtain ⟨ha, hb, hc⟩ := ih stN st' hsubN hin
        refine ⟨?_, hb, ?_⟩
        · rw [ha, hsumN, hsum1]
          simp only [List.length_cons]
          push_cast
          ring
        · rw [hc]
          exact hel1

theorem mapInitFold_spec : ∀ (cl : List (String × String)) (st : StvState),
    vcKeysSub st →
    vcKeysSub (mapInitFold cl st) ∧
    asum (mapInitFold cl st).voteCount = asum st.voteCount ∧
    (mapInitFold cl st).elected = st.elected := by
  intro cl
  induction cl with
  | nil =>
    intro st h
    exact ⟨h, rfl, rfl⟩
  | cons p rest ih =>
    obtain ⟨cand, cons⟩ := p
    intro st h
    simp only [mapInitFold]
    have h1 : vcKeysSub { st with constituenciesElected := aset st.constituenciesElected cons 0 } :=
      fun d hd => h d hd
    by_cases ha : (alookup ({ st with constituenciesElected := aset st.constituenciesElected cons 0 } : StvState).allocated cand).isSome = true
    · rw [if_pos ha]
      by_cases hc : cand ∈ st.candidates
      · rw [if_pos hc]
        exact ih _ h1
      · rw [if_neg hc]
        have hnone : alookup st.voteCount cand = none := vcKeysSub_none st h cand hc
        have hsub : vcKeysSub
            { st with constituenciesElected := aset st.constituenciesElected cons 0,
                      candidates := st.candidates ++ [cand],
                      voteCount := aset st.voteCount cand 0 } := by
          intro d hd
          rcases alookup_aset_isSome st.voteCount cand d 0 hd with he | he
          · subst he
            exact List.mem_append_right _ (List.mem_singleton.mpr rfl)
          · exact List.mem_append_left _ (h d he)
        obtain ⟨g1, g2, g3⟩ := ih _ hsub
        refine ⟨g1, ?_, g3⟩
        rw [g2]
        show asum (aset st.voteCount cand 0) = asum st.voteCount
        rw [asum_aset_none st.voteCount cand 0 hnone]
        ring
    · rw [if_neg ha]
      by_cases hc : cand ∈ st.candidates
      · rw [if_pos hc]
        exact ih _ (fun d hd => h d hd)
      · rw [if_neg hc]
        have hnone : alookup st.voteCount cand = none := vcKeysSub_none st h cand hc
        have hsub : vcKeysSub
            { st with constituenciesElected := aset st.constituenciesElected cons 0,
                      allocated := aset st.allocated cand [],
                      candidates := st.candidates ++ [cand],
                      voteCount := aset st.voteCount cand 0 } := by
          intro d hd
          rcases alookup_aset_isSome st.voteCount cand d 0 hd with he | he
          · subst he
            exact List.mem_append_right _ (List.mem_singleton.mpr rfl)
          · exact List.mem_append_left _ (h d he)
        obtain ⟨g1, g2, g3⟩ := ih _ hsub
        refine ⟨g1, ?_, g3⟩
        rw [g2]
        show asum (aset st.voteCount cand 0) = asum st.voteCount
        rw [asum_aset_none st.voteCount cand 0 hnone]
        ring

theorem emptyState_vcKeysSub : vcKeysSub emptyState := by
  intro c hd
  simp [emptyState, alookup] at hd

/-- C2 (amended): in exact arithmetic the quantity the engine preserves is
the sum of `tally[c]` over all candidates, which equals the *number of
ballots* after the initial count and is preserved exactly by every round
of the main loop (including weighted surplus transfers, since the same
rounded total is added to the recipient and subtracted from the donor),
by the round-robin filler and by the zombie pass.  The claim as stated —
that this sum equals the sum of the current values of the non-exhausted
ballots — fails as soon as a surplus transfer multiplies ballot values by
`weight < 1`: the ballots then carry `weight · value` while the donor's
tally retains the threshold part, so the two sums differ by far more than
the stated `10⁻¹² · |ballots|` tolerance (see the counterexample). -/
theorem C2_tally_sum_invariant :
    (∀ (cmap : List (String × String)) (ballots : List (List String)) (st1 : StvState),
      initialCount ballots (mapInitFold cmap emptyState) = some st1 →
      asum st1.voteCount = (ballots.length : ℚ)) ∧
    (∀ (threshold : ℚ) (cmap : List (String × String)) (quota : ℤ)
        (stream : ℕ → ℕ) (st st' : StvState),
      mainRound threshold cmap quota stream st = some st' →
      asum st'.voteCount = asum st.voteCount) ∧
    (∀ (cs : List (String × ℤ)) (cmap : List (String × String)) (quota : ℤ)
        (stream : ℕ → ℕ) (seats : ℤ) (st st' : StvState),
      elect_round_robin cs cmap quota stream seats st = some st' →
      asum st'.voteCount = asum st.voteCount) ∧
    (∀ (cmap : List (String × String)) (quota seats : ℤ) (fuel : ℕ)
        (st st' : StvState),
      zombieLoop cmap quota seats fuel st = some st' →
      asum st'.voteCount = asum st.voteCount) ∧
    (∀ (ballots : List (List String)) (seats : ℤ) (cs : List (String × ℤ))
        (cmap : List (String × String)) (quota : ℤ) (stream : ℕ → ℕ)
        (st : StvState),
      count_stv_state ballots seats cs cmap quota stream = some st →
      asum st.voteCount = (ballots.length : ℚ)) := by
  have hinit : ∀ (cmap : List (String × String)) (ballots : List (List String)) (st1 : StvState),
      initialCount ballots (mapInitFold cmap emptyState) = some st1 →
      asum st1.voteCount = (ballots.length : ℚ) := by
    intro cmap ballots st1 h
    obtain ⟨hsub0, hsum0, -⟩ := mapInitFold_spec cmap emptyState emptyState_vcKeysSub
    obtain ⟨ha, -, -⟩ := initialCount_spec ballots _ st1 hsub0 h
    rw [ha, hsum0]
    show asum [] + (ballots.length : ℚ) = _
    simp [asum]
  refine ⟨hinit, fun threshold cmap quota stream st st' h => mainRound_asum _ _ _ _ _ _ h,
    ?_, ?_, ?_⟩
  · intro cs cmap quota stream seats st st' h
    rw [elect_round_robin_voteCount cs cmap quota stream seats st st' h]
  · intro cmap quota seats fuel st st' h
    rw [zombieLoop_voteCount cmap quota seats fuel st st' h]
  · intro ballots seats cs cmap quota stream st h
    simp only [count_stv_state] at h
    split at h
    · exact absurd h (by simp)
    · split at h
      · exact absurd h (by simp)
      · rename_i thr hthr st1 hst1
        split at h
        · exact absurd h (by simp)
        · rename_i st3 hst3
          split at h
          · exact absurd h (by simp)
          · rename_i st4 hst4
            have h4 := zombieLoop_voteCount _ _ _ _ _ _ h
            have h3 : st4.voteCount = st3.voteCount := by
              split at hst4
              · exact elect_round_robin_voteCount _ _ _ _ _ _ _ hst4
              · rw [← Option.some.inj hst4]
            have h2 := mainLoop_asum _ _ _ _ _ _ _ _ hst3
            have h1 := hinit cmap ballots st1 hst1
            rw [h4, h3, h2]
            simpa using h1

/-- C2 counterexample: three ballots `[A, B]`, one seat, threshold 2.  In
round 1, A is elected with surplus 1 and the ballots transfer to B at
weight 1/3.  After the round the tally sum is still 3, but the sum of the
current values of the (non-exhausted) ballots is 1: the difference 2 is
far beyond the claimed tolerance `10⁻¹² · 3`. -/
theorem C2_tally_vs_ballot_values_counterexample :
    ((pyThreshold 3 1).bind fun thr =>
      (initialCount [["A", "B"], ["A", "B"], ["A", "B"]] (mapInitFold [] emptyState)).bind fun st1 =>
        mainRound (thr : ℚ) [] 0 (fun _ => 0) { st1 with hopefuls := st1.candidates }).map
      (fun st => (asum st.voteCount, heldValuesSum st,
        decide (|asum st.voteCount - heldValuesSum st| ≤ 3 / 10 ^ 12))) =
    some (3, 1, false) := by
  with_unfolding_all rfl

/-- Witness for the amended C2 on a complete concrete count. -/
theorem C2_tally_sum_invariant_witness :
    ∃ st, count_stv_state [["A", "B"], ["A", "B"], ["A", "B"]] 1 [] [] 0 (fun _ => 0) =
      some st ∧ asum st.voteCount = 3 := by
  cases hEq : count_stv_state [["A", "B"], ["A", "B"], ["A", "B"]] 1 [] [] 0 (fun _ => 0) with
  | none => exact absurd hEq (by with_unfolding_all decide)
  | some st =>
    refine ⟨st, rfl, ?_⟩
    have := C2_tally_sum_invariant.2.2.2.2 [["A", "B"], ["A", "B"], ["A", "B"]] 1 [] [] 0
      (fun _ => 0) st hEq
    simpa using this

/-! ## Lemmas: the elected list never exceeds the seat count (for C3) -/

theorem elect_reject_elected_len (candidate : String) (vc : List (String × ℚ))
    (cmap : List (String × String)) (quota : ℤ) (round : ℕ)
    (elected rejected : List (String × ℕ × ℚ)) (epc : List (String × ℕ)) :
    (elect_reject candidate vc cmap quota round elected rejected epc).elected.length ≤
      elected.length + 1 := by
  simp only [elect_reject]
  repeat' split
  all_goals simp

theorem mainRound_elected_len (threshold : ℚ) (cmap : List (String × String))
    (quota : ℤ) (stream : ℕ → ℕ) (st st' : StvState)
    (h : mainRound threshold cmap quota stream st = some st') :
    st'.elected.length ≤ st.elected.length + 1 := by
  simp only [mainRound] at h
  split at h
  · exact absurd h (by simp)
  · split at h
    · exact absurd h (by simp)
    · split at h
      · split at h
        · exact absurd h (by simp)
        · split at h
          · exact absurd h (by simp)
          · split at h
            · split at h
              · exact absurd h (by simp)
              · rw [← Option.some.inj h]
                exact elect_reject_elected_len _ _ _ _ _ _ _ _
            · split at h
              · split at h
                · exact absurd h (by simp)
                · split at h
                  · exact absurd h (by simp)
                  · rw [← Option.some.inj h]
                    exact elect_reject_elected_len _ _ _ _ _ _ _ _
              · rw [← Option.some.inj h]
                exact elect_reject_elected_len _ _ _ _ _ _ _ _
      · split at h
        · exact absurd h (by simp)
        · split at h
          · exact absurd h (by simp)
          · rw [← Option.some.inj h]
            simp

theorem mainLoop_elected_le (seats : ℤ) (threshold : ℚ)
    (cmap : List (String × String)) (quota : ℤ) (stream : ℕ → ℕ) :
    ∀ (fuel : ℕ) (st st' : StvState),
      (st.elected.length : ℤ) ≤ seats →
      mainLoop seats threshold cmap quota stream fuel st = some st' →
      (st'.elected.length : ℤ) ≤ seats := by
  intro fuel
  induction fuel with
  | zero =>
    intro st st' hle h
    rw [mainLoop] at h
    split at h
    · exact absurd h (by simp)
    · rw [← Option.some.inj h]
      exact hle
  | succ f ih =>
    intro st st' hle h
    rw [mainLoop] at h
    split at h
    · rename_i hguard
      cases hr : mainRound threshold cmap quota stream st with
      | none => rw [hr] at h; exact absurd h (by simp)
      | some st1 =>
        rw [hr] at h
        have h1 := mainRound_elected_len threshold cmap quota stream st st1 hr
        refine ih st1 st' ?_ h
        have : (st1.elected.length : ℤ) ≤ (st.elected.length : ℤ) + 1 := by
          exact_mod_cast h1
        omega
    · rw [← Option.some.inj h]
      exact hle

theorem rrLoop_elected_le (sortedOrph : List (String × ℤ))
    (cmap : List (String × String)) (quota : ℤ) (stream : ℕ → ℕ) (seats : ℤ) :
    ∀ (fuel : ℕ) (socs : List (String × List (String × ℚ))) (n turn : ℕ)
      (st st' : StvState),
      (st.elected.length : ℤ) ≤ seats →
      rrLoop sortedOrph cmap quota stream seats fuel socs n turn st = some st' →
      (st'.elected.length : ℤ) ≤ seats := by
  intro fuel
  induction fuel with
  | zero =>
    intro socs n turn st st' hle h
    rw [rrLoop] at h
    split at h
    · exact absurd h (by simp)
    · rw [← Option.some.inj h]
      exact hle
  | succ f ih =>
    intro socs n turn st st' hle h
    simp only [rrLoop] at h
    split at h
    · rename_i hguard
      split at h
      · exact absurd h (by simp)
      · split at h
        · exact absurd h (by simp)
        · rename_i best socs2 turn2 c2 t2 hfind xopt was hstatus
          refine ih _ _ _ _ _ ?_ h
          have h1 := elect_reject_elected_len best st.voteCount cmap quota
            st.currentRound st.elected st.rejected st.constituenciesElected
          have h2 : (st.elected.length : ℤ) < seats := hguard.1
          have h3 : ((elect_reject best st.voteCount cmap quota st.currentRound
              st.elected st.rejected st.constituenciesElected).elected.length : ℤ) ≤
              (st.elected.length : ℤ) + 1 := by
            exact_mod_cast h1
          simp only []
          omega
    · rw [← Option.some.inj h]
      exact hle

theorem elect_round_robin_elected_le (constituencies : List (String × ℤ))
    (cmap : List (String × String)) (quota : ℤ) (stream : ℕ → ℕ) (seats : ℤ)
    (st st' : StvState) (hle : (st.elected.length : ℤ) ≤ seats)
    (h : elect_round_robin constituencies cmap quota stream seats st = some st') :
    (st'.elected.length : ℤ) ≤ seats := by
  simp only [elect_round_robin] at h
  split at h
  · exact absurd h (by simp)
  · split at h
    · rw [← Option.some.inj h]
      exact hle
    · split at h
      · exact absurd h (by simp)
      · refine rrLoop_elected_le _ _ _ _ _ _ _ _ _ _ _ ?_ h
        simpa using hle

theorem zombieLoop_elected_le (cmap : List (String × String)) (quota seats : ℤ) :
    ∀ (fuel : ℕ) (st st' : StvState),
      (st.elected.length : ℤ) ≤ seats →
      zombieLoop cmap quota seats fuel st = some st' →
      (st'.elected.length : ℤ) ≤ seats := by
  intro fuel
  induction fuel with
  | zero =>
    intro st st' hle h
    rw [zombieLoop] at h
    split at h
    · exact absurd h (by simp)
    · rw [← Option.some.inj h]
      exact hle
  | succ f ih =>
    intro st st' hle h
    simp only [zombieLoop] at h
    split at h
    · rename_i hguard
      split at h
      · exact absurd h (by simp)
      · split at h
        · exact absurd h (by simp)
        · rename_i best hlast xopt was hstatus
          refine ih _ _ ?_ h
          have h1 := elect_reject_elected_len best st.voteCount cmap quota
            st.currentRound st.elected st.rejected st.constituenciesElected
          have h2 : (st.elected.length : ℤ) < seats := hguard.1
          have h3 : ((elect_reject best st.voteCount cmap quota st.currentRound
              st.elected st.rejected st.constituenciesElected).elected.length : ℤ) ≤
              (st.elected.length : ℤ) + 1 := by
            exact_mod_cast h1
          simp only []
          omega
    · rw [← Option.some.inj h]
      exact hle

/-- C3: `|elected| ≤ seats` at all times.  Each phase appends to `elected`
only under a guard `|elected| < seats`, one candidate at a time, so every
iteration of the main loop, of the round-robin loop and of the zombie
pass preserves the bound, and the final state of `count_stv` satisfies
it.  Since `elected` is append-only, every intermediate value of the list
is a prefix of a state covered by these conjuncts. -/
theorem C3_elected_le_seats :
    (∀ (threshold : ℚ) (cmap : List (String × String)) (quota : ℤ)
        (stream : ℕ → ℕ) (st st' : StvState) (seats : ℤ),
      (st.elected.length : ℤ) < seats →
      mainRound threshold cmap quota stream st = some st' →
      (st'.elected.length : ℤ) ≤ seats) ∧
    (∀ (seats : ℤ) (threshold : ℚ) (cmap : List (String × String)) (quota : ℤ)
        (stream : ℕ → ℕ) (fuel : ℕ) (st st' : StvState),
      (st.elected.length : ℤ) ≤ seats →
      mainLoop seats threshold cmap quota stream fuel st = some st' →
      (st'.elected.length : ℤ) ≤ seats) ∧
    (∀ (sortedOrph : List (String × ℤ)) (cmap : List (String × String))
        (quota : ℤ) (stream : ℕ → ℕ) (seats : ℤ) (fuel : ℕ)
        (socs : List (String × List (String × ℚ))) (n turn : ℕ) (st st' : StvState),
      (st.elected.length : ℤ) ≤ seats →
      rrLoop sortedOrph cmap quota stream seats fuel socs n turn st = some st' →
      (st'.elected.length : ℤ) ≤ seats) ∧
    (∀ (cmap : List (String × String)) (quota seats : ℤ) (fuel : ℕ) (st st' : StvState),
      (st.elected.length : ℤ) ≤ seats →
      zombieLoop cmap quota seats fuel st = some st' →
      (st'.elected.length : ℤ) ≤ seats) ∧
    (∀ (ballots : List (List String)) (seats : ℤ) (cs : List (String × ℤ))
        (cmap : List (String × String)) (quota : ℤ) (stream : ℕ → ℕ) (st : StvState),
      0 ≤ seats →
      count_stv_state ballots seats cs cmap quota stream = some st →
      (st.elected.length : ℤ) ≤ seats) := by
  refine ⟨?_, ?_, ?_, ?_, ?_⟩
  · intro threshold cmap quota stream st st' seats hlt h
    have h1 := mainRound_elected_len threshold cmap quota stream st st' h
    have h2 : (st'.elected.length : ℤ) ≤ (st.elected.length : ℤ) + 1 := by
      exact_mod_cast h1
    omega
  · intro seats threshold cmap quota stream fuel st st' hle h
    exact mainLoop_elected_le seats threshold cmap quota stream fuel st st' hle h
  · intro sortedOrph cmap quota stream seats fuel socs n turn st st' hle h
    exact rrLoop_elected_le sortedOrph cmap quota stream seats fuel socs n turn st st' hle h
  · intro cmap quota seats fuel st st' hle h
    exact zombieLoop_elected_le cmap quota seats fuel st st' hle h
  · intro ballots seats cs cmap quota stream st hseats h
    simp only [count_stv_state] at h
    split at h
    · exact absurd h (by simp)
    · split at h
      · exact absurd h (by simp)
      · rename_i thr hthr st1 hst1
        split at h
        · exact absurd h (by simp)
        · rename_i st3 hst3
          split at h
          · exact absurd h (by simp)
          · rename_i st4 hst4
            obtain ⟨hsub0, -, hel0⟩ := mapInitFold_spec cmap emptyState emptyState_vcKeysSub
            obtain ⟨-, -, hel1⟩ := initialCount_spec ballots _ st1 hsub0 hst1
            have hel : st1.elected = [] := by
              rw [hel1, hel0]
              rfl
            have h2 : (st3.elected.length : ℤ) ≤ seats := by
              refine mainLoop_elected_le _ _ _ _ _ _ _ _ ?_ hst3
              simp [hel]
              omega
            have h3 : (st4.elected.length : ℤ) ≤ seats := by
              split at hst4
              · exact elect_round_robin_elected_le _ _ _ _ _ _ _ h2 hst4
              · rw [← Option.some.inj hst4]
                exact h2
            exact zombieLoop_elected_le _ _ _ _ _ _ h3 h

/-- Witness for C3 on a concrete complete count (three seats, two
candidates plus the round-robin and zombie phases). -/
theorem C3_elected_le_seats_witness :
    ∃ st, count_stv_state [["Y"], ["Y"], ["Y"], ["X"]] 3 [("A", 10), ("B", 5)]
        [("X", "A"), ("Y", "B")] 0 (fun _ => 0) = some st ∧
      (st.elected.length : ℤ) ≤ 3 := by
  cases hEq : count_stv_state [["Y"], ["Y"], ["Y"], ["X"]] 3 [("A", 10), ("B", 5)]
      [("X", "A"), ("Y", "B")] 0 (fun _ => 0) with
  | none => exact absurd hEq (by with_unfolding_all decide)
  | some st =>
    exact ⟨st, rfl, C3_elected_le_seats.2.2.2.2 _ 3 _ _ 0 _ st (by norm_num) hEq⟩

/-- C1 failing input (code bug): ballots `3×[Y], 1×[X]`, three seats,
constituencies `A (size 10, candidate X)` and `B (size 5, candidate Y)`.
The main loop elects Y and eliminates X; the round-robin filler then
elects X for orphan constituency A but does not remove X from the
`eliminated` list; the zombie pass pops X and elects X a second time.
The elected sequence contains X twice, violating the invariant the claim
states. -/
theorem C1_candidate_elected_twice :
    count_stv [["Y"], ["Y"], ["Y"], ["X"]] 3 [("A", 10), ("B", 5)]
        [("X", "A"), ("Y", "B")] 0 (fun _ => 0) =
      some ([("Y", 1, 3), ("X", 3, 1), ("X", 3, 1)], [("X", 1), ("Y", 3)]) := by
  with_unfolding_all rfl

/-- C6 failing input (code bug): `Ballot.weights` is a mutable *class*
attribute, so the weight histories of distinct ballots alias one list.
After `b0.add_weight(1/2)` and `b1.add_weight(1/4)`, ballot 0's value is
`1/2` but the product of its (shared) weight history `[1, 1/2, 1/4]` is
`1/8`: the invariant "value equals the product of the ballot's own weight
history" fails as soon as two ballots receive weights. -/
theorem C6_shared_weights_break_invariant :
    (add_weight (add_weight (newBallots 2) 0 (1/2)) 1 (1/4)).values.getD 0 1 = 1/2 ∧
    weightsProduct (add_weight (add_weight (newBallots 2) 0 (1/2)) 1 (1/4)).sharedWeights = 1/8 ∧
    ((1:ℚ)/2 ≠ 1/8) := by
  with_unfolding_all decide

/-- C8 (amended): `select_first_rnd` draws from the random stream iff
more than one item of the sorted sequence shares the first item's key;
with no tie it returns the first item and consumes nothing.  However, a
complete tie-free run of `count_stv` can still consume randomness: the
round-robin filler shuffles the orphan constituencies before sorting
them, and `random.shuffle` draws from the PRNG whenever there are at
least two of them, ties or not — see
`C8_tie_free_run_consumes_randomness`. -/
theorem C8_select_draws_iff {α β : Type} [DecidableEq β] (x : α) (rest : List α)
    (key : α → β) (stream : ℕ → ℕ) (c t : ℕ) :
    (1 < ((x :: rest).filter fun it => key it = key x).length →
      select_first_rnd (x :: rest) key stream c t =
        some (((x :: rest).filter fun it => key it = key x).getD
          (stream c % ((x :: rest).filter fun it => key it = key x).length) x,
          c + 1, t + 1)) ∧
    (((x :: rest).filter fun it => key it = key x).length ≤ 1 →
      select_first_rnd (x :: rest) key stream c t = some (x, c, t)) := by
  constructor
  · intro h
    simp only [select_first_rnd]
    rw [if_pos h]
  · intro h
    simp only [select_first_rnd]
    rw [if_neg (not_lt.mpr h)]

/-- C8 counterexample: a complete run with no ties anywhere (tallies
4, 2, 1; orphan sizes 5 ≠ 3; every selection unique, `tieDraws = 0`),
which nevertheless consumes one random draw: the round-robin filler
shuffles its two orphan constituencies. -/
theorem C8_tie_free_run_consumes_randomness :
    (count_stv_state [["a"], ["a"], ["a"], ["a"], ["b"], ["b"], ["c"]] 2
        [("A", 10), ("B", 5), ("C", 3)] [("a", "A"), ("b", "B"), ("c", "C")] 0
        (fun _ => 0)).map
      (fun st => (st.elected.map (·.1), st.tieDraws, st.consumed)) =
      some (["a", "b"], 0, 1) := by
  with_unfolding_all rfl

/-- Witness for C8: a tied selection draws (consumed and tie counters
advance); an untied selection returns the head and consumes nothing. -/
theorem C8_select_draws_iff_witness :
    select_first_rnd [0, 0] (fun n : ℕ => n) (fun _ => 0) 0 0 = some (0, 1, 1) ∧
    select_first_rnd [5, 6] (fun n : ℕ => n) (fun _ => 0) 2 0 = some (5, 2, 0) := by
  constructor
  · rw [(C8_select_draws_iff 0 [0] (fun n : ℕ => n) (fun _ => 0) 0 0).1 (by decide)]
    decide
  · exact (C8_select_draws_iff 5 [6] (fun n : ℕ => n) (fun _ => 0) 2 0).2 (by decide)

/-! ## Lemmas: the shape of `redistribute_ballots` (for C5) -/

theorem getD_set_ne {α : Type} (l : List α) (i k : ℕ) (v d : α) (h : i ≠ k) :
    (l.set i v).getD k d = l.getD k d := by
  simp [List.getD, List.getElem?_set_ne h]

theorem scanAux_spec (hopefuls : List String) :
    ∀ (l : List String) (idx j : ℕ), scanAux hopefuls l idx = some j →
      idx ≤ j ∧ j - idx < l.length ∧ l.getD (j - idx) "" ∈ hopefuls := by
  intro l
  induction l with
  | nil =>
    intro idx j h
    simp [scanAux] at h
  | cons c restl ih =>
    intro idx j h
    rw [scanAux] at h
    by_cases hc : c ∈ hopefuls
    · rw [if_pos hc] at h
      have hj : idx = j := Option.some.inj h
      subst hj
      refine ⟨le_refl _, by simp, ?_⟩
      simp [hc]
    · rw [if_neg hc] at h
      obtain ⟨h1, h2, h3⟩ := ih (idx + 1) j h
      refine ⟨by omega, by simp; omega, ?_⟩
      have hd : j - idx = (j - (idx + 1)) + 1 := by omega
      rw [hd]
      simpa using h3

theorem scanFrom_spec (cands hopefuls : List String) (start j : ℕ)
    (h : scanFrom cands hopefuls start = some j) :
    start ≤ j ∧ j < cands.length ∧ cands.getD j "" ∈ hopefuls := by
  obtain ⟨h1, h2, h3⟩ := scanAux_spec hopefuls (cands.drop start) start j h
  have hlen : (cands.drop start).length = cands.length - start := List.length_drop ..
  rw [hlen] at h2
  refine ⟨h1, by omega, ?_⟩
  have hget : (cands.drop start).getD (j - start) "" = cands.getD j "" := by
    simp only [List.getD]
    rw [List.get?_drop]
    congr 2
    omega
  rw [← hget]
  exact h3

theorem redistLoop_spec (weight : ℚ) (hopefuls : List String) (orig : List Ballot) :
    ∀ (ids : List ℕ) (r : Redist),
      ids.Nodup →
      (∀ i ∈ ids, r.ballots.getD i blankBallot = orig.getD i blankBallot) →
      (redistLoop weight hopefuls ids r).transferred =
          r.transferred ++
            ids.filter (fun i => transfersQ hopefuls (orig.getD i blankBallot)) ∧
      (∀ c l, alookup r.allocated c = some l →
        ∃ l2, alookup (redistLoop weight hopefuls ids r).allocated c = some l2 ∧
          ∀ x, x ∈ l → x ∈ l2) ∧
      (∀ i ∈ ids, ∀ j,
        scanFrom (orig.getD i blankBallot).candidates hopefuls
            ((orig.getD i blankBallot).currentHolder + 1) = some j →
        ∃ l2, alookup (redistLoop weight hopefuls ids r).allocated
            ((orig.getD i blankBallot).candidates.getD j "") = some l2 ∧ i ∈ l2) := by
  intro ids
  induction ids with
  | nil =>
    intro r hnd hagree
    refine ⟨by simp [redistLoop], ?_, ?_⟩
    · intro c l hl
      exact ⟨l, hl, fun x hx => hx⟩
    · intro i hi
      simp at hi
  | cons i rest ih =>
    intro r hnd hagree
    have hagi : r.ballots.getD i blankBallot = orig.getD i blankBallot :=
      hagree i (List.mem_cons_self i rest)
    have hndr : rest.Nodup := (List.nodup_cons.mp hnd).2
    have hinotr : i ∉ rest := (List.nodup_cons.mp hnd).1
    simp only [redistLoop, hagi]
    cases hscan : scanFrom (orig.getD i blankBallot).candidates hopefuls
        ((orig.getD i blankBallot).currentHolder + 1) with
    | none =>
      have htq : transfersQ hopefuls (orig.getD i blankBallot) = false := by
        rw [transfersQ, hscan]
        rfl
      obtain ⟨T, M, P⟩ := ih r hndr (fun k hk => hagree k (List.mem_cons_of_mem i hk))
      refine ⟨?_, M, ?_⟩
      · rw [T, List.filter_cons, htq]
        simp
      · intro k hk j hj
        rcases List.mem_cons.mp hk with hk1 | hk1
        · subst hk1
          rw [hscan] at hj
          exact absurd hj (by simp)
        · exact P k hk1 j hj
    | some j =>
      have htq : transfersQ hopefuls (orig.getD i blankBallot) = true := by
        rw [transfersQ, hscan]
        rfl
      obtain ⟨-, hjlt, hjmem⟩ :=
        scanFrom_spec (orig.getD i blankBallot).candidates hopefuls _ j hscan
      set b := orig.getD i blankBallot with hb
      set recipient := b.candidates.getD j "" with hrec
      set r' : Redist :=
        { ballots := r.ballots.set i ⟨b.candidates, j, b.value * weight⟩
          allocated := aset r.allocated recipient
            (((alookup r.allocated recipient).getD []) ++ [i])
          moves := mbump r.moves (recipient, b.value * weight)
          transferred := r.transferred ++ [i] } with hr'
      have hagree' : ∀ k ∈ rest, r'.ballots.getD k blankBallot = orig.getD k blankBallot := by
        intro k hk
        have hik : i ≠ k := fun he => hinotr (he ▸ hk)
        calc r'.ballots.getD k blankBallot = r.ballots.getD k blankBallot :=
              getD_set_ne r.ballots i k _ blankBallot hik
        _ = orig.getD k blankBallot := hagree k (List.mem_cons_of_mem i hk)
      obtain ⟨T, M, P⟩ := ih r' hndr hagree'
      refine ⟨?_, ?_, ?_⟩
      · rw [T, List.filter_cons, htq]
        simp [hr']
      · intro c l hl
        by_cases hcr : c = recipient
        · subst hcr
          have hl' : alookup r'.allocated recipient = some (l ++ [i]) := by
            rw [hr']
            show alookup (aset r.allocated recipient
              (((alookup r.allocated recipient).getD []) ++ [i])) recipient = _
            rw [alookup_aset_self, hl]
            rfl
          obtain ⟨l2, hl2, hmono⟩ := M recipient (l ++ [i]) hl'
          exact ⟨l2, hl2, fun x hx => hmono x (List.mem_append_left _ hx)⟩
        · have hl' : alookup r'.allocated c = some l := by
            rw [hr']
            show alookup (aset r.allocated recipient _) c = some l
            rw [alookup_aset_ne _ recipient c _ (fun he => hcr he.symm)]
            exact hl
          exact M c l hl'
      · intro k hk j' hj'
        rcases List.mem_cons.mp hk with hk1 | hk1
        · subst hk1
          rw [hscan] at hj'
          have hjj : j = j' := Option.some.inj hj'
          subst hjj
          have hself : alookup r'.allocated recipient =
              some ((((alookup r.allocated recipient).getD [])) ++ [k]) := by
            rw [hr']
            exact alookup_aset_self _ _ _
          obtain ⟨l2, hl2, hmono⟩ := M recipient _ hself
          exact ⟨l2, hl2, hmono k (List.mem_append_right _ (by simp))⟩
        · exact P k hk1 j' hj'

theorem contains_iff_mem_nat (l : List ℕ) (a : ℕ) : l.contains a = true ↔ a ∈ l := by
  simp

/-- C5 (amended): after `redistribute_ballots(selected, ...)` (with
`selected ∉ hopefuls`, as at every call site), the transferred ballots —
exactly those whose scan from `current_holder + 1` finds a hopeful — are
removed from `selected`'s allocation with the order of the remaining
ballots preserved: the remaining list is the original one filtered to the
ballots whose scan found no hopeful.  Those exhausted ballots are *not*
removed from the allocation map — they stay with `selected` (see the
counterexample refuting the claim as stated) — and every transferred
ballot is appended to the allocation of the hopeful its scan found. -/
theorem C5_transferred_removed_exhausted_stay (selected : String) (weight : ℚ)
    (hopefuls : List String) (ballots : List Ballot)
    (allocated : List (String × List ℕ)) (vc : List (String × ℚ))
    (ids : List ℕ) (bs : List Ballot) (al : List (String × List ℕ))
    (vc' : List (String × ℚ))
    (hsel : alookup allocated selected = some ids)
    (hnodup : ids.Nodup)
    (hnh : selected ∉ hopefuls)
    (hres : redistribute_ballots selected weight hopefuls ballots allocated vc =
      some (bs, al, vc')) :
    alookup al selected =
      some (ids.filter fun i => !(transfersQ hopefuls (ballots.getD i blankBallot))) ∧
    (∀ i ∈ ids, ∀ j,
      scanFrom (ballots.getD i blankBallot).candidates hopefuls
          ((ballots.getD i blankBallot).currentHolder + 1) = some j →
      ∃ l2, alookup al ((ballots.getD i blankBallot).candidates.getD j "") = some l2 ∧
        i ∈ l2) := by
  simp only [redistribute_ballots] at hres
  split at hres
  · exact absurd hres (by simp)
  · rename_i ids0 hids0
    have hidseq : ids = ids0 := Option.some.inj (hsel.symm.trans hids0)
    subst hidseq
    split at hres
    · exact absurd hres (by simp)
    · rename_i vc2 happ
      have hinj := Option.some.inj hres
      have hal : al = aset (redistLoop weight hopefuls ids
          ⟨ballots, allocated, [], []⟩).allocated selected
          (ids.filter fun i => !((redistLoop weight hopefuls ids
            ⟨ballots, allocated, [], []⟩).transferred.contains i)) := by
        have := congrArg (fun p : List Ballot × List (String × List ℕ) × List (String × ℚ) => p.2.1) hinj
        simpa using this.symm
      obtain ⟨T, M, P⟩ := redistLoop_spec weight hopefuls ballots ids
        ⟨ballots, allocated, [], []⟩ hnodup (fun k _ => rfl)
      have hT : (redistLoop weight hopefuls ids ⟨ballots, allocated, [], []⟩).transferred =
          ids.filter (fun i => transfersQ hopefuls (ballots.getD i blankBallot)) := by
        rw [T]
        rfl
      constructor
      · rw [hal, alookup_aset_self]
        congr 1
        apply List.filter_congr
        intro i hi
        rw [hT]
        congr 1
        by_cases hp : transfersQ hopefuls (ballots.getD i blankBallot) = true
        · rw [hp]
          exact (contains_iff_mem_nat _ i).mpr (List.mem_filter.mpr ⟨hi, hp⟩)
        · have hp' : transfersQ hopefuls (ballots.getD i blankBallot) = false :=
            Bool.eq_false_iff.mpr hp
          rw [hp']
          rw [← Bool.not_eq_true]
          intro hcon
          have := List.mem_filter.mp ((contains_iff_mem_nat _ i).mp hcon)
          rw [hp'] at this
          exact absurd this.2 (by simp)
      · intro i hi j hj
        obtain ⟨l2, hl2, hil2⟩ := P i hi j hj
        have hrec : (ballots.getD i blankBallot).candidates.getD j "" ∈ hopefuls :=
          (scanFrom_spec _ _ _ _ hj).2.2
        have hne : selected ≠ (ballots.getD i blankBallot).candidates.getD j "" := by
          intro he
          rw [← he] at hrec
          exact hnh hrec
        refine ⟨l2, ?_, hil2⟩
        rw [hal, alookup_aset_ne _ selected _ _ hne]
        exact hl2

/-- C5 counterexample: candidate A's single ballot `[A]` has no next
preference (it is exhausted), hopefuls = `[B]`.  After
`redistribute_ballots(A, 1.0, [B], ...)` the ballot is still held by A in
the allocation map — exhausted ballots are not removed. -/
theorem C5_exhausted_ballot_stays :
    (redistribute_ballots "A" 1 ["B"] [⟨["A"], 0, 1⟩] [("A", [0])]
        [("A", 1), ("B", 0)]).map (fun r => alookup r.2.1 "A") =
      some (some [0]) := by
  with_unfolding_all rfl

/-- Witness for the amended C5: one exhausted ballot stays with the donor
while one transferred ballot moves to its recipient's allocation. -/
theorem C5_transferred_removed_exhausted_stay_witness :
    ∃ l2, alookup
        (((redistribute_ballots "A" (1/2) ["B"] [⟨["A"], 0, 1⟩, ⟨["A", "B"], 0, 1⟩]
          [("A", [0, 1]), ("B", [])] [("A", 2), ("B", 0)]).map
            (fun r => r.2.1)).getD []) "B" = some l2 ∧ (1 : ℕ) ∈ l2 := by
  cases hres : redistribute_ballots "A" (1/2) ["B"] [⟨["A"], 0, 1⟩, ⟨["A", "B"], 0, 1⟩]
      [("A", [0, 1]), ("B", [])] [("A", 2), ("B", 0)] with
  | none => exact absurd hres (by with_unfolding_all decide)
  | some res =>
    obtain ⟨bs, al, vc'⟩ := res
    obtain ⟨-, hP⟩ := C5_transferred_removed_exhausted_stay "A" (1/2) ["B"]
      [⟨["A"], 0, 1⟩, ⟨["A", "B"], 0, 1⟩] [("A", [0, 1]), ("B", [])] [("A", 2), ("B", 0)]
      [0, 1] bs al vc' rfl (by decide) (by decide) hres
    obtain ⟨l2, hl2, hmem⟩ := hP 1 (by decide) 1 (by with_unfolding_all decide)
    refine ⟨l2, ?_, hmem⟩
    simpa using hl2
